import Mathlib

/-!
Bugs-Game-SK: wire codec, generator and round control.

A shallow embedding of `utils.h`, `message.h`, `player.h` and the `Game` class of
`server.h`, followed by the properties established about them.

Conventions of the embedding:

* `uint8_t`, `uint16_t`, `uint32_t`, `uint64_t` values are natural numbers; every place
  where the C++ narrows or wraps carries an explicit `% 2 ^ w`.
* a byte of a `char` buffer is a natural number below 256 (its unsigned value); where the
  code reads it through the signed type `char` the conversion is written out
  (`char_to_int`, `char_to_u32`).
* memory written through a `char *` is a function from offsets to bytes.
-/

namespace BugsGame

/-! ## utils.h : CRC-32 -/

/-- One iteration of the inner loop of `build_crc32_table`, on the pair `(ch, crc)`:
`b=(ch^crc)&1; crc>>=1; if(b) crc=crc^0xEDB88320; ch>>=1;`. -/
def build_crc32_step (p : Nat × Nat) : Nat × Nat :=
  let b := (p.1 ^^^ p.2) &&& 1
  let crc := p.2 >>> 1
  let crc := if b ≠ 0 then crc ^^^ 0xEDB88320 else crc
  (p.1 >>> 1, crc)

/-- The value stored in `crc32_table[i]`: eight inner iterations from `ch=i`, `crc=0`. -/
def crc32_table_entry (i : Nat) : Nat := (build_crc32_step^[8] (i, 0)).2

/-- The 256-entry table filled by `build_crc32_table`. -/
def build_crc32_table : List Nat := (List.range 256).map crc32_table_entry

/-- A buffer byte read as `char` (signed on the target) and converted to `uint32_t`,
as happens to `ch` in `ch^crc`: sign extension to 32 bits. -/
def char_to_u32 (b : Nat) : Nat := if b < 128 then b else b + 0xFFFFFF00

/-- Body of the loop of `calculate_crc32`:
`char ch=s[i]; uint32_t t=(ch^crc)&0xFF; crc=(crc>>8)^crc32_table[t];`. -/
def crc32_update (crc b : Nat) : Nat :=
  let t := (char_to_u32 b ^^^ crc) &&& 0xFF
  (crc >>> 8) ^^^ build_crc32_table.getD t 0

/-- The function `calculate_crc32(s, n)` on the `n` bytes `s`; the final `~crc` is the
32-bit complement. -/
def calculate_crc32 (s : List Nat) : Nat :=
  0xFFFFFFFF - s.foldl crc32_update 0xFFFFFFFF

/-- Reference, following the specification's words: one shift-right step that XORs the
polynomial `0xEDB88320` in when the shifted-out bit is 1. -/
def crc32_bit_step (crc : Nat) : Nat :=
  if crc % 2 = 1 then (crc >>> 1) ^^^ 0xEDB88320 else crc >>> 1

/-- Reference, following the specification's words: bit-by-bit IEEE CRC-32 with initial
value `0xFFFFFFFF` and final XOR `0xFFFFFFFF`. -/
def crc32_reference (s : List Nat) : Nat :=
  (s.foldl (fun crc b => crc32_bit_step^[8] (crc ^^^ b)) 0xFFFFFFFF) ^^^ 0xFFFFFFFF

/-! ## Memory seen through a `char *` -/

/-- Bytes addressed by offset: the memory a `char *` points into. -/
abbrev Mem := Nat → Nat

/-- Storing the bytes `bs` at offsets `addr, addr+1, ...`. -/
def write (m : Mem) (addr : Nat) (bs : List Nat) : Mem :=
  fun a => if addr ≤ a ∧ a < addr + bs.length then bs.getD (a - addr) 0 else m a

/-- Reading `n` bytes from offset `addr`. -/
def load (m : Mem) (addr n : Nat) : List Nat :=
  (List.range n).map (fun i => m (addr + i))

/-- The four bytes of `htonl(v)` in memory order (most significant first) for a
`uint32_t` value `v`. -/
def u32_be_bytes (v : Nat) : List Nat :=
  [v / 2 ^ 24 % 256, v / 2 ^ 16 % 256, v / 2 ^ 8 % 256, v % 256]

/-- The value of a big-endian byte string, as computed by `ntohl` / `be64toh` on the
word read from memory. -/
def be_decode (bs : List Nat) : Nat := bs.foldl (fun acc b => acc * 256 + b) 0

/-- The statement `*(uint32_t *) (addr) = htonl(v);`. -/
def store32 (m : Mem) (addr v : Nat) : Mem := write m addr (u32_be_bytes v)

/-- The statement `*(uint8_t *) (addr) = v;`. -/
def store8 (m : Mem) (addr v : Nat) : Mem := write m addr [v % 256]

/-- The call `std::memcpy(addr, src.data(), src.size())`. -/
def memcpy (m : Mem) (addr : Nat) (src : List Nat) : Mem := write m addr src

/-! ## player.h : enumerations -/

/-- The enumeration `PlayerState`, in declaration order. -/
inductive PlayerState
  | PLAYING
  | WAITING
  | READY
  | OBSERVING
  | ELIMINATED
  | DISCONNECTED
  deriving DecidableEq, Repr

/-- Enumerator `STRAIGHT` of `Direction` (an `uint8_t`). -/
def STRAIGHT : Nat := 0
/-- Enumerator `RIGHT` of `Direction`. -/
def RIGHT : Nat := 1
/-- Enumerator `LEFT` of `Direction`. -/
def LEFT : Nat := 2
/-- Enumerator `WRONG_DIRECTION` of `Direction`. -/
def WRONG_DIRECTION : Nat := 3

/-! ## message.h : events -/

/-- Enumerator `NEW_GAME` of `EventType`. -/
def NEW_GAME : Nat := 0
/-- Enumerator `PIXEL` of `EventType`. -/
def PIXEL : Nat := 1
/-- Enumerator `PLAYER_ELIMINATED` of `EventType`. -/
def PLAYER_ELIMINATED : Nat := 2
/-- Enumerator `GAME_OVER` of `EventType`. -/
def GAME_OVER : Nat := 3

/-- The class `Event` with its four subclasses; every variant carries the base-class
fields `length` and `number` first. -/
inductive Event
  | NewGameEvent (length number width height : Nat) (player_names : List Nat)
  | PixelEvent (length number player_number x y : Nat)
  | PlayerEliminatedEvent (length number player_number : Nat)
  | GameOverEvent (length number : Nat)
  deriving DecidableEq, Repr

namespace Event

/-- Base-class field `length`. -/
def length : Event → Nat
  | NewGameEvent l _ _ _ _ => l
  | PixelEvent l _ _ _ _ => l
  | PlayerEliminatedEvent l _ _ => l
  | GameOverEvent l _ => l

/-- Base-class field `number`. -/
def number : Event → Nat
  | NewGameEvent _ n _ _ _ => n
  | PixelEvent _ n _ _ _ => n
  | PlayerEliminatedEvent _ n _ => n
  | GameOverEvent _ n => n

/-- Constructor `NewGameEvent(width, height, player_names)`:
`Event(player_names.size() + 17, 0)`. The arguments of the three constructors below are
values of the parameter types; the narrowing of a wider argument is written at the call
site. -/
def newGame (width height : Nat) (player_names : List Nat) : Event :=
  NewGameEvent ((player_names.length + 17) % 2 ^ 32) 0 width height player_names

/-- Constructor `PixelEvent(number, player_number, x, y)`: `Event(14, number)`. -/
def pixel (number player_number x y : Nat) : Event :=
  PixelEvent 14 number player_number x y

/-- Constructor `PlayerEliminatedEvent(number, player_number)`: `Event(6, number)`. -/
def playerEliminated (number player_number : Nat) : Event :=
  PlayerEliminatedEvent 6 number player_number

/-- Constructor inherited by `GameOverEvent` (`using Event::Event`). -/
def gameOver (length number : Nat) : Event :=
  GameOverEvent length number

/-- The method `Event::serialize`: writes `length` and `number`, returns 8. -/
def serialize_base (length number : Nat) (m : Mem) (address : Nat) : Mem × Nat :=
  let m := store32 m address length
  let m := store32 m (address + 4) number
  (m, 8)

/-- The virtual method `serialize(address)` of the four subclasses: the memory after the
call and the returned size. -/
def serialize (e : Event) (m : Mem) (address : Nat) : Mem × Nat :=
  match e with
  | NewGameEvent length number width height player_names =>
    let m := (serialize_base length number m address).1
    let m := store8 m (address + 8) NEW_GAME
    let m := store32 m (address + 9) width
    let m := store32 m (address + 13) height
    let m := memcpy m (address + 17) player_names
    let size := (player_names.length + 17) % 2 ^ 32
    let m := store32 m (address + size) (calculate_crc32 (load m address size))
    (m, (size + 4) % 2 ^ 32)
  | PixelEvent length number player_number x y =>
    let m := (serialize_base length number m address).1
    let m := store8 m (address + 8) PIXEL
    let m := store8 m (address + 9) player_number
    let m := store32 m (address + 10) x
    let m := store32 m (address + 14) y
    let m := store32 m (address + 18) (calculate_crc32 (load m address 18))
    (m, 22)
  | PlayerEliminatedEvent length number player_number =>
    let m := (serialize_base length number m address).1
    let m := store8 m (address + 8) PLAYER_ELIMINATED
    let m := store8 m (address + 9) player_number
    let m := store32 m (address + 10) (calculate_crc32 (load m address 10))
    (m, 14)
  | GameOverEvent length number =>
    let m := (serialize_base length number m address).1
    let m := store8 m (address + 8) GAME_OVER
    let m := store32 m (address + 9) (calculate_crc32 (load m address 9))
    (m, 13)

/-- The `event_type` byte of the wire format, by variant. -/
def event_type : Event → Nat
  | NewGameEvent _ _ _ _ _ => NEW_GAME
  | PixelEvent _ _ _ _ _ => PIXEL
  | PlayerEliminatedEvent _ _ _ => PLAYER_ELIMINATED
  | GameOverEvent _ _ => GAME_OVER

/-- The `event_data` field as the specification lays it out:
NEW_GAME `width | height | names`, PIXEL `player_number | x | y`,
PLAYER_ELIMINATED `player_number`, GAME_OVER empty. -/
def event_data : Event → List Nat
  | NewGameEvent _ _ width height player_names =>
    u32_be_bytes width ++ u32_be_bytes height ++ player_names
  | PixelEvent _ _ player_number x y =>
    [player_number % 256] ++ u32_be_bytes x ++ u32_be_bytes y
  | PlayerEliminatedEvent _ _ player_number => [player_number % 256]
  | GameOverEvent _ _ => []

/-- The bytes that precede the checksum in the wire format of the specification:
`len | event_no | event_type | event_data`. -/
def framed_fields (e : Event) : List Nat :=
  u32_be_bytes e.length ++ u32_be_bytes e.number ++ [e.event_type] ++ e.event_data

/-- The name list of a `NewGameEvent` fits the 32-bit size arithmetic of `serialize`
(always so for the other variants). -/
def fits : Event → Prop
  | NewGameEvent _ _ _ _ player_names => player_names.length + 21 < 2 ^ 32
  | _ => True

end Event

/-- The serialized record of an event as the specification frames it: the framed fields
followed by the big-endian CRC-32 of them. -/
def Event.wire (e : Event) : List Nat :=
  e.framed_fields ++ u32_be_bytes (calculate_crc32 e.framed_fields)

/-! ## message.h : client message -/

/-- The class `DeserializationException`. -/
inductive DeserializationException
  | mk
  deriving DecidableEq, Repr

/-- The class `ClientMessage`; `player_name` is the array `char player_name[21]`. -/
structure ClientMessage where
  session_id : Nat
  turn_direction : Nat
  next_expected_event_no : Nat
  player_name : List Nat
  deriving DecidableEq, Repr

/-- A buffer byte read into a variable of the signed type `char`. -/
def char_to_int (b : Nat) : Int := if b < 128 then (b : Int) else (b : Int) - 256

/-- The loop `for (int i = 0; i < n - 13; i++)` of `deserialize`, with `k` iterations
left at index `i`: `char c = buffer[i + 13]; if (c < 33 || c > 126) throw ...;
player_name[i] = c;`. -/
def deserialize_name (buffer : Mem) :
    Nat → Nat → List Nat → Except DeserializationException (List Nat)
  | 0, _, name => .ok name
  | k + 1, i, name =>
    let c := char_to_int (buffer (i + 13))
    if c < 33 ∨ c > 126 then .error .mk
    else deserialize_name buffer k (i + 1) (name.set i (buffer (i + 13)))

/-- The method `ClientMessage::deserialize(buffer, n)` on the object `self`: the object
after the call, or the exception thrown. -/
def ClientMessage.deserialize (self : ClientMessage) (buffer : Mem) (n : Int) :
    Except DeserializationException ClientMessage :=
  if n < 13 ∨ n > 33 then .error .mk
  else
    let session_id := be_decode (load buffer 0 8)
    let turn_direction := buffer 8
    let next_expected_event_no := be_decode (load buffer 9 4)
    match deserialize_name buffer (n - 13).toNat 0 self.player_name with
    | .error e => .error e
    | .ok name =>
      .ok { session_id := session_id, turn_direction := turn_direction,
            next_expected_event_no := next_expected_event_no,
            player_name := name.set (n - 13).toNat 0 }

/-! ## utils.h : options -/

/-- The structure `CliOptions` (`port` is `uint16_t`, `seed` is `int`, the rest `short`). -/
structure CliOptions where
  port : Nat := 2021
  seed : Int
  turning_speed : Int := 6
  rounds_per_sec : Int := 50
  width : Int := 640
  height : Int := 480
  deriving DecidableEq, Repr

/-! ## player.h : endpoints and players -/

/-- The class `ClientId`: the 16 bytes of the `in6_addr` and the port. -/
structure ClientId where
  address : List Nat
  port : Nat
  deriving DecidableEq, Repr

/-- The floating-point part of `Player`, kept abstract: `Pos` stands for the pair of
doubles `(x, y)`; `init a b` is the position `(a + 0.5, b + 0.5)` passed to
`Player::init`, `cell` is `get_position_int` (the casts `(int)x, (int)y`), and
`advance p d` is the position after `x += cos(M_PI/180*d); y += sin(M_PI/180*d)`. -/
structure Motion (Pos : Type) where
  init : Nat → Nat → Pos
  cell : Pos → Int × Int
  advance : Pos → Int → Pos

/-- The class `Player` without its timestamp; `direction` is an `int16_t`. -/
structure Player (Pos : Type) where
  session_id : Nat
  name : List Nat
  state : PlayerState
  last_key : Nat
  pos : Pos
  direction : Int

/-- Conversion of an `int` value to `int16_t`. -/
def to_int16 (v : Int) : Int := (v + 32768) % 65536 - 32768

namespace Player

variable {Pos : Type}

/-- The method `Player::init(new_x, new_y, dir)` with `(new_x, new_y)` given as a
position and `dir` an `uint16_t`. -/
def init (p : Player Pos) (new_pos : Pos) (dir : Nat) : Player Pos :=
  { p with pos := new_pos, direction := to_int16 dir }

/-- The method `Player::update(turning_speed)`. -/
def update (M : Motion Pos) (p : Player Pos) (turning_speed : Nat) : Player Pos :=
  let direction :=
    if p.last_key = RIGHT then
      let d := to_int16 (p.direction + turning_speed)
      if d > 360 then to_int16 (d - 360) else d
    else if p.last_key = LEFT then
      let d := to_int16 (p.direction - turning_speed)
      if d < 0 then to_int16 (d + 360) else d
    else p.direction
  { p with direction := direction, pos := M.advance p.pos direction }

/-- The method `Player::set_state(s)`; every enumerator satisfies `s <= DISCONNECTED`. -/
def set_state (p : Player Pos) (s : PlayerState) : Player Pos := { p with state := s }

/-- The method `Player::get_position_int`. -/
def get_position_int (M : Motion Pos) (p : Player Pos) : Int × Int := M.cell p.pos

end Player

/-- An iterator into `PlayerMap`, identified with the key of the node it points to
(nodes of the map are never erased). -/
abbrev PlayerMapIt := ClientId

/-- The players the iterators point to: what `it->second` reads and writes. -/
abbrev PlayerMap (Pos : Type) := PlayerMapIt → Player Pos

/-- The comparison `operator<` of `std::string` on names: lexicographic on byte values,
a proper prefix being smaller. -/
def string_lt : List Nat → List Nat → Bool
  | [], [] => false
  | [], _ :: _ => true
  | _ :: _, [] => false
  | a :: as, b :: bs => if a < b then true else if b < a then false else string_lt as bs

/-! ## server.h : Game -/

/-- The state of a `Game` object, together with the function-local
`static bool first_call` of `Game::random`. -/
structure Game where
  turning_speed : Nat
  width : Nat
  height : Nat
  seed : Nat
  board : List (List Bool)
  players : List PlayerMapIt := []
  events : List Event := []
  currently_being_played : Bool := false
  game_id : Nat := 0
  still_playing : Nat := 0
  first_call : Bool := true

namespace Game

/-- The constructor `Game(const CliOptions &o)`: the `short` options are converted to
`uint16_t`, the seed to `uint32_t`; a negative width or height makes the allocation of
the board throw. -/
def new (o : CliOptions) : Option Game :=
  if o.width < 0 ∨ o.height < 0 then none
  else some
    { turning_speed := (o.turning_speed % 2 ^ 16).toNat
      width := (o.width % 2 ^ 16).toNat
      height := (o.height % 2 ^ 16).toNat
      seed := (o.seed % 2 ^ 32).toNat
      board := List.replicate o.width.toNat (List.replicate o.height.toNat false) }

/-- The method `Game::random`: the returned value and the state after the call. -/
def random (g : Game) : Nat × Game :=
  if g.first_call then (g.seed, { g with first_call := false })
  else
    let seed := g.seed * 279410273 % 2 ^ 64 % 4294967291 % 2 ^ 32
    (seed, { g with seed := seed })

/-- The value returned by call number `k` (from 0) of `random` and the state after it. -/
def random_nth (g : Game) : Nat → Nat × Game
  | 0 => g.random
  | k + 1 => (random_nth g k).2.random

/-- The sequence of the specification: `r 0 = seed`, `r (k+1) = r k * 279410273 mod
4294967291`, in unbounded arithmetic. -/
def lcg_reference (seed : Nat) : Nat → Nat
  | 0 => seed
  | k + 1 => lcg_reference seed k * 279410273 % 4294967291

/-- The method `Game::is_position_valid(x, y)`. -/
def is_position_valid (g : Game) (x y : Int) : Bool :=
  if x < 0 ∨ y < 0 ∨ x ≥ g.width ∨ y ≥ g.height then false
  else (g.board.getD x.toNat []).getD y.toNat false

variable {Pos : Type}

/-- The comparator `comp` of `start` as the order handed to the sort: `i1` may stand
before `i2` when the name of `i2` is not smaller than that of `i1`. -/
def name_le (store : PlayerMap Pos) (i1 i2 : PlayerMapIt) : Prop :=
  string_lt (store i2).name (store i1).name = false

instance (store : PlayerMap Pos) : DecidableRel (name_le store) :=
  fun _ _ => inferInstanceAs (Decidable (_ = false))

/-- First loop of `start`, over the sorted `players`: each player is initialised from
three draws of `random` and its name and a NUL are appended to `names`. The draws are
taken in the order the arguments of `init` are written, which is the order the
specification gives (C++ leaves it to the compiler). -/
def start_init (M : Motion Pos) :
    List PlayerMapIt → Game × PlayerMap Pos × List Nat → Game × PlayerMap Pos × List Nat
  | [], s => s
  | it :: rest, (g, store, names) =>
    let r1 := g.random
    let r2 := r1.2.random
    let r3 := r2.2.random
    let p := (store it).init (M.init (r1.1 % g.width) (r2.1 % g.height)) (r3.1 % 360)
    let store := Function.update store it p
    start_init M rest (r3.2, store, names ++ (store it).name ++ [0])

/-- Body of the second loop of `start` at index `i`: the event pushed for the player
`it`, `PixelEvent(i + 1, i, x, y)` or `PlayerEliminatedEvent(i + 1, i)`. -/
def start_event (M : Motion Pos) (store : PlayerMap Pos) (g : Game) (i : Nat)
    (it : PlayerMapIt) : Event :=
  let xy := (store it).get_position_int M
  if g.is_position_valid xy.1 xy.2 then
    Event.pixel ((i + 1) % 2 ^ 32) (i % 256) (xy.1 % 2 ^ 32).toNat (xy.2 % 2 ^ 32).toNat
  else Event.playerEliminated ((i + 1) % 2 ^ 32) (i % 256)

/-- Second loop of `start`, from index `i`: one event per player. -/
def start_events (M : Motion Pos) (store : PlayerMap Pos) :
    List PlayerMapIt → Nat → Game → Game
  | [], _, g => g
  | it :: rest, i, g =>
    start_events M store rest (i + 1)
      { g with events := g.events ++ [start_event M store g i it] }

/-- The first statements of `start`, up to and including `std::sort`:
`currently_being_played = true; still_playing = new_players.size();
players = std::move(new_players); game_id = random(); std::sort(...)`. `std::sort` is
rendered by an insertion sort (the order it gives to players of equal name is one of
those `std::sort` may give). -/
def start_setup (g : Game) (store : PlayerMap Pos) (new_players : List PlayerMapIt) :
    Game :=
  let g := { g with currently_being_played := true,
                    still_playing := new_players.length % 256,
                    players := new_players }
  let r := g.random
  let g := { r.2 with game_id := r.1 }
  { g with players := g.players.insertionSort (name_le store) }

/-- The method `Game::start(new_players)`: the game and the players afterwards, and the
returned iterator `events.begin()` as an index into the log. -/
def start (M : Motion Pos) (g : Game) (store : PlayerMap Pos)
    (new_players : List PlayerMapIt) : Game × PlayerMap Pos × Nat :=
  let g := start_setup g store new_players
  let s := start_init M g.players (g, store, [])
  let g := s.1
  let store := s.2.1
  let g := { g with events := g.events ++ [Event.newGame g.width g.height s.2.2] }
  (start_events M store g.players 0 g, store, 0)

/-- The loop of `process_turn` over the players from index `i`, with the local variable
`counter`; the `break` ends the recursion. -/
def process_turn_loop (M : Motion Pos) :
    List PlayerMapIt → Nat → Game × PlayerMap Pos × Int → Game × PlayerMap Pos × Int
  | [], _, s => s
  | it :: rest, i, (g, store, counter) =>
    let p := store it
    if p.state = .DISCONNECTED ∨ p.state = .ELIMINATED then
      process_turn_loop M rest (i + 1) (g, store, counter)
    else
      let old := p.get_position_int M
      let p := p.update M g.turning_speed
      let store := Function.update store it p
      let new := p.get_position_int M
      if old = new then process_turn_loop M rest (i + 1) (g, store, counter)
      else if g.is_position_valid new.1 new.2 then
        let e := Event.pixel (counter % 2 ^ 32).toNat (i % 256)
          (new.1 % 2 ^ 32).toNat (new.2 % 2 ^ 32).toNat
        process_turn_loop M rest (i + 1)
          ({ g with events := g.events ++ [e] }, store, counter + 1)
      else
        let e := Event.playerEliminated (counter % 2 ^ 32).toNat (i % 256)
        let store := Function.update store it (p.set_state .ELIMINATED)
        let g := { g with events := g.events ++ [e],
                          still_playing := (g.still_playing + 255) % 256 }
        if g.still_playing = 1 then
          ({ g with currently_being_played := false }, store, counter + 1)
        else process_turn_loop M rest (i + 1) (g, store, counter + 1)

/-- The method `Game::process_turn`: the game and the players afterwards, and the
returned iterator (`events.end()` as it was on entry) as an index into the log. -/
def process_turn (M : Motion Pos) (g : Game) (store : PlayerMap Pos) :
    Game × PlayerMap Pos × Nat :=
  let s := process_turn_loop M g.players 0 (g, store, (g.players.length : Int))
  (s.1, s.2.1, g.events.length)

end Game

/-- The relation of one game to the games it can become: a constructed game on which
`start` has been called once, followed by any number of calls of `process_turn`, the
players being in any condition at each call. -/
inductive Game.Reachable {Pos : Type} (M : Motion Pos) : Game → Prop
  | start (o : CliOptions) (g0 : Game) (store : PlayerMap Pos) (ps : List PlayerMapIt) :
      Game.new o = some g0 → Game.Reachable M (Game.start M g0 store ps).1
  | turn (g : Game) (store : PlayerMap Pos) :
      Game.Reachable M g → Game.Reachable M (Game.process_turn M g store).1

/-- An event the cell test of `g` lets through: any event that is not a PIXEL event, or
a PIXEL event whose coordinates are those of a cell for which `is_position_valid`
returns true. -/
def Game.admits (g : Game) : Event → Prop
  | .PixelEvent _ _ _ x y =>
    ∃ cx cy : Int, g.is_position_valid cx cy = true ∧
      x = (cx % 2 ^ 32).toNat ∧ y = (cy % 2 ^ 32).toNat
  | _ => True

/-! ## player.h : session operations -/

/-- The `std::string` built from a `char` array: the bytes before the first NUL. -/
def cstr (a : List Nat) : List Nat := a.takeWhile (fun b => b ≠ 0)

/-- Conversion of a wider integer value to `int`. -/
def to_int32 (v : Int) : Int := (v + 2147483648) % 4294967296 - 2147483648

namespace ClientId

/-- The `i`-th `uint32_t` of the address as `operator<` reads it through
`(uint32_t *) &address` (the target is little-endian). -/
def word (c : ClientId) (i : Nat) : Nat :=
  c.address.getD (4 * i) 0 + 256 * c.address.getD (4 * i + 1) 0
    + 65536 * c.address.getD (4 * i + 2) 0 + 16777216 * c.address.getD (4 * i + 3) 0

/-- The loop of `operator<` from word `i`, with `k` words left, then the ports. -/
def lt_from (a b : ClientId) : Nat → Nat → Bool
  | 0, _ => decide (a.port < b.port)
  | k + 1, i =>
    if a.word i ≠ b.word i then decide (a.word i < b.word i) else lt_from a b k (i + 1)

/-- The method `ClientId::operator<`. -/
def lt (a b : ClientId) : Bool := lt_from a b 4 0

end ClientId

/-- What one call of `process_message` takes from outside the embedding: for each
session the value `quiet_for_2s` returns during the call (the code computes it from the
clock), and the indeterminate `x`, `y`, `direction` of a `Player` the constructor leaves
uninitialised. -/
structure Ambient (Pos : Type) where
  quiet : PlayerMapIt → Bool
  pos : Pos
  direction : Int

namespace Player

variable {Pos : Type}

/-- The constructor `Player(session_id, direction, name_)`. -/
def new (A : Ambient Pos) (session_id direction : Nat) (name : List Nat) : Player Pos :=
  { session_id := session_id, name := name,
    state := if name = [] then .OBSERVING else .WAITING,
    last_key := direction, pos := A.pos, direction := A.direction }

/-- The method `Player::reset(new_session_id, dir, p_name)`. -/
def reset (p : Player Pos) (new_session_id dir : Nat) (p_name : List Nat) : Player Pos :=
  { p with session_id := new_session_id, last_key := dir, name := cstr p_name,
           state := if p.state = .READY then .READY else .WAITING }

/-- The method `Player::set_last_key(dir)`. -/
def set_last_key (p : Player Pos) (dir : Nat) : Player Pos := { p with last_key := dir }

end Player

/-! ## server.h : Server -/

/-- One call of `sendto` made by `send_data_in_buffer(n_bytes, client)`: the arguments
of the call and the `DATAGRAM_SIZE` bytes of `buffer` handed to the socket. -/
structure Sent where
  client : ClientId
  n_bytes : Nat
  data : List Nat
  deriving DecidableEq, Repr

/-- The state of a `Server` object (socket and port left out): `keys` are the keys of
the map `players` in map order and `players` gives the mapped `Player` of each. -/
structure Server (Pos : Type) where
  buffer : Mem
  rounds_per_sec : Nat
  ready_to_play : Nat := 0
  keys : List ClientId := []
  players : PlayerMap Pos
  waiting : List PlayerMapIt := []
  player_queue : List PlayerMapIt := []
  game : Game

namespace Server

variable {Pos : Type}

/-- The constant `Server::DATAGRAM_SIZE`. -/
def DATAGRAM_SIZE : Nat := 550

/-- The constant `Server::MAX_PLAYERS`. -/
def MAX_PLAYERS : Nat := 25

/-- The constructor `Server(const CliOptions &o)`; `buffer` is the indeterminate content
of the array and `players` what the iterators of the (empty) map would point to. -/
def new (o : CliOptions) (buffer : Mem) (players : PlayerMap Pos) : Option (Server Pos) :=
  (Game.new o).map fun g =>
    { buffer := buffer, rounds_per_sec := (o.rounds_per_sec % 2 ^ 16).toNat,
      players := players, game := g }

/-- The method `send_data_in_buffer(n_bytes, client)`: `sendto` is given `buffer` and
the length `DATAGRAM_SIZE`. -/
def send_data_in_buffer (buffer : Mem) (n_bytes : Nat) (client : ClientId) : Sent :=
  { client := client, n_bytes := n_bytes, data := load buffer 0 DATAGRAM_SIZE }

/-- The two-way branch `if (client) ... else for (auto &p_it: players) ...` of
`send_events`, with `dests` the one client or the keys of `players`. -/
def send_to (buffer : Mem) (n_bytes : Nat) (dests : List ClientId) : List Sent :=
  dests.map (fun d => send_data_in_buffer buffer n_bytes d)

/-- The destinations of `send_events`: the one client given, or every key of
`players` when the pointer is null. -/
def dests (s : Server Pos) (client : Option ClientId) : List ClientId :=
  match client with
  | some c => [c]
  | none => s.keys

/-- The loop of `send_events` over the events still to serialize, on the buffer, the
local `offset` and the calls of `sendto` made so far. -/
def send_events_loop (dests : List ClientId) :
    List Event → Mem × Nat × List Sent → Mem × Nat × List Sent
  | [], s => s
  | event :: rest, (buffer, offset, sent) =>
    let r := event.serialize buffer offset
    let buffer := r.1
    let offset := (offset + r.2) % 2 ^ 32
    if offset ≥ DATAGRAM_SIZE then
      let sent := sent ++ send_to buffer DATAGRAM_SIZE dests
      let offset := offset - DATAGRAM_SIZE
      let buffer := memcpy buffer 0 (load buffer DATAGRAM_SIZE offset)
      send_events_loop dests rest (buffer, offset, sent)
    else send_events_loop dests rest (buffer, offset, sent)

/-- The method `send_events(event_it, client)` with `event_it = events.begin() + number`
(defined for `number ≤ events.size()`): the server afterwards and the calls of `sendto`
in order. -/
def send_events (s : Server Pos) (number : Nat) (client : Option ClientId) :
    Server Pos × List Sent :=
  let dests := s.dests client
  let buffer := store32 s.buffer 0 s.game.game_id
  let r := send_events_loop dests (s.game.events.drop number) (buffer, 4, [])
  let sent := if r.2.1 > 0 then r.2.2 ++ send_to r.1 r.2.1 dests else r.2.2
  ({ s with buffer := r.1 }, sent)

/-- The loop of `check_activity` on the queue and the players. -/
def check_activity_loop (A : Ambient Pos) :
    List PlayerMapIt → PlayerMap Pos → List PlayerMapIt × PlayerMap Pos
  | [], players => ([], players)
  | it :: rest, players =>
    if A.quiet it then
      check_activity_loop A rest
        (Function.update players it ((players it).set_state .DISCONNECTED))
    else (it :: rest, players)

/-- The method `check_activity`. -/
def check_activity (A : Ambient Pos) (s : Server Pos) : Server Pos :=
  let r := check_activity_loop A s.player_queue s.players
  { s with player_queue := r.1, players := r.2 }

/-- The method `update_time_info(player_it)`. -/
def update_time_info (A : Ambient Pos) (s : Server Pos) (player_it : PlayerMapIt) :
    Server Pos :=
  let s := s.check_activity A
  { s with player_queue := s.player_queue.erase player_it ++ [player_it] }

/-- The method `is_playername_taken(name)`. -/
def is_playername_taken (s : Server Pos) (name : List Nat) : Bool :=
  s.keys.any fun k => decide ((s.players k).name = name)

/-- Insertion of a new key into the ordered keys of `std::map`. -/
def map_insert (c : ClientId) : List ClientId → List ClientId
  | [] => [c]
  | k :: rest => if c.lt k then c :: k :: rest else k :: map_insert c rest

/-- The method `process_message(m, addr)` up to its last statement, with
`clientId = ClientId(addr)`: the server afterwards and, when the last statement
`send_events(game.get_event_iterator(m.next_expected_event_no), &clientId)` is reached,
the number handed to `get_event_iterator`. -/
def process_message (A : Ambient Pos) (s : Server Pos) (m : ClientMessage)
    (clientId : ClientId) : Server Pos × Option Nat :=
  if m.turn_direction ≥ WRONG_DIRECTION then (s, none)
  else if clientId ∉ s.keys then
    let name := cstr m.player_name
    if s.is_playername_taken name then (s.check_activity A, none)
    else
      let p := Player.new A m.session_id m.turn_direction name
      let s := { s with keys := map_insert clientId s.keys,
                        players := Function.update s.players clientId p,
                        player_queue := s.player_queue ++ [clientId] }
      let s := if (s.players clientId).state = .WAITING then
          { s with waiting := s.waiting ++ [clientId] }
        else s
      (s.update_time_info A clientId, none)
  else
    let s := s.update_time_info A clientId
    let p := s.players clientId
    if p.session_id > m.session_id then (s, none)
    else if p.session_id < m.session_id then
      let old_state := p.state
      let s := { s with players := Function.update s.players clientId
                          (p.reset m.session_id m.turn_direction m.player_name) }
      let s := if old_state ≠ .WAITING ∧ old_state ≠ .READY then
          { s with waiting := s.waiting ++ [clientId] }
        else s
      (s, some m.next_expected_event_no)
    else
      if cstr m.player_name ≠ cstr (p.name ++ [0]) then (s, none)
      else
        let s := { s with players := Function.update s.players clientId
                            (p.set_last_key m.turn_direction) }
        let n := to_int32 (((s.game.events.length : Int) - m.next_expected_event_no)
          % 2 ^ 64)
        if n ≤ 0 then (s, none) else (s, some m.next_expected_event_no)

/-- The whole of `process_message(m, addr)`: `none` when `get_event_iterator` is asked
for an iterator past the end of the log, which the language leaves undefined. -/
def ingest (A : Ambient Pos) (s : Server Pos) (m : ClientMessage) (clientId : ClientId) :
    Option (Server Pos × List Sent) :=
  match process_message A s m clientId with
  | (s, none) => some (s, [])
  | (s, some number) =>
    if number ≤ s.game.events.length then some (s.send_events number (some clientId))
    else none

end Server

/-- A sequence of datagrams, each with its sender, processed one after the other by
`process_message`. -/
def Server.run_messages {Pos : Type} (A : Ambient Pos) :
    Server Pos → List (ClientMessage × ClientId) → Option (Server Pos)
  | s, [] => some s
  | s, (m, c) :: rest =>
    match s.ingest A m c with
    | none => none
    | some r => Server.run_messages A r.1 rest

/-- The condition of the lobby loop of `Server::run`,
`waiting.size() < 2 || waiting.size() != ready_to_play`: while it holds the server keeps
receiving and no round starts. -/
def Server.lobby_waits {Pos : Type} (s : Server Pos) : Bool :=
  decide (s.waiting.length < 2 ∨ s.waiting.length ≠ s.ready_to_play)

/-- The lobby loop of `Server::run` fed with the decoded datagrams that arrive, in
order: the server when the loop stops, and whether it stopped because the condition
became false (then `game.start` follows) rather than because nothing more arrives. -/
def Server.lobby {Pos : Type} (A : Ambient Pos) :
    Server Pos → List (ClientMessage × ClientId) → Option (Server Pos × Bool)
  | s, [] => some (s, !s.lobby_waits)
  | s, (m, c) :: rest =>
    if s.lobby_waits then
      match s.ingest A m c with
      | none => none
      | some r => Server.lobby A r.1 rest
    else some (s, true)

/-- An endpoint as the socket layer delivers it: 16 address bytes. -/
def ClientId.wf (c : ClientId) : Prop :=
  c.address.length = 16 ∧ ∀ b ∈ c.address, b < 256

/-! ## Concrete data used in the examples -/

/-- The floating-point primitives on headings that are multiples of 90 degrees, with a
position held in half units: there `cos` and `sin` are 0 or ±1 up to an error below
3e-16, which never carries a coordinate of the form `k + 0.5` over an integer, and the
cast `(int)` truncates towards zero. Other headings are outside this table and leave the
position as it is; the examples do not use them. -/
def gridMotion : Motion (Int × Int) where
  init a b := (2 * (a : Int) + 1, 2 * (b : Int) + 1)
  cell p := (p.1.tdiv 2, p.2.tdiv 2)
  advance p d :=
    if d = 0 ∨ d = 360 then (p.1 + 2, p.2)
    else if d = 90 then (p.1, p.2 + 2)
    else if d = 180 then (p.1 - 2, p.2)
    else if d = 270 then (p.1, p.2 - 2)
    else p

/-- The endpoint `[::1]:1001`. -/
def clientA : ClientId := ⟨[0, 0, 0, 0, 0, 0, 0, 0, 0, 0, 0, 0, 0, 0, 0, 1], 1001⟩

/-- The endpoint `[::1]:1002`. -/
def clientB : ClientId := ⟨[0, 0, 0, 0, 0, 0, 0, 0, 0, 0, 0, 0, 0, 0, 0, 1], 1002⟩

/-- Two waiting sessions: "A" at `clientA`, "B" at every other endpoint, both steering
straight. -/
def twoPlayers : PlayerMap (Int × Int) := fun c =>
  { session_id := 1, name := if c = clientA then [65] else [66], state := .WAITING,
    last_key := STRAIGHT, pos := (0, 0), direction := 0 }

/-- A fresh 10 x 10 game with the given seed and turning speed 90. -/
def freshGame (seed : Nat) : Game :=
  { turning_speed := 90, width := 10, height := 10, seed := seed,
    board := List.replicate 10 (List.replicate 10 false) }

/-- A 15-byte client datagram: session id 7, turn direction 1, next expected event 5,
name "AB". -/
def sampleDatagram : Mem := fun a => [0, 0, 0, 0, 0, 0, 0, 7, 1, 0, 0, 0, 5, 65, 66].getD a 0

/-- A `ClientMessage` object before `deserialize` fills it. -/
def sampleMessage : ClientMessage := ⟨0, 0, 0, List.replicate 21 0⟩

/-- Scenario A of the specification (10 x 10, seed 123, players "A" and "B") after
`Game::start`. -/
def scenarioA : Game × PlayerMap (Int × Int) × Nat :=
  Game.start gridMotion (freshGame 123) twoPlayers [clientA, clientB]

/-- The same round with seed 804349, after `Game::start`. The draws after the round id
are 620241120, 3746703855, 285419520, so "A" is seeded at cell (0,5) with heading 0 in
whichever order the three arguments of `init` are evaluated. -/
def roundStarted : Game × PlayerMap (Int × Int) × Nat :=
  Game.start gridMotion (freshGame 804349) twoPlayers [clientA, clientB]

/-- The round `roundStarted` after one call of `Game::process_turn`. -/
def roundAfterTurn : Game × PlayerMap (Int × Int) × Nat :=
  Game.process_turn gridMotion roundStarted.1 roundStarted.2.1

/-- A second `Game::start` with the same two sessions on the game left by
`roundAfterTurn`. -/
def secondRound : Game × PlayerMap (Int × Int) × Nat :=
  Game.start gridMotion roundAfterTurn.1 roundAfterTurn.2.1 [clientA, clientB]

/-- A session steering right with heading 354. -/
def steeringRight : Player (Int × Int) :=
  { session_id := 1, name := [65], state := .PLAYING, last_key := RIGHT, pos := (11, 11),
    direction := 354 }

/-- The name list of a round of 24 players whose names are 20 bytes long: 504 bytes. -/
def bigRoundNames : List Nat :=
  ((List.range 24).map (fun i => List.replicate 20 (65 + i) ++ [0])).flatten

/-- The log of that round after `Game::start` on a fresh 10 x 10 board: NEW_GAME
followed by the 24 events of the players. -/
def bigRoundLog : List Event :=
  Event.newGame 10 10 bigRoundNames ::
    (List.range 24).map (fun i => Event.playerEliminated (i + 1) i)

/-- A server holding that log under game id 804349, with the session of `clientA`
registered. -/
def bigRoundServer : Server (Int × Int) :=
  { buffer := fun _ => 0, rounds_per_sec := 50, keys := [clientA], players := twoPlayers,
    player_queue := [clientA],
    game := { turning_speed := 90, width := 10, height := 10, seed := 804349,
              board := List.replicate 10 (List.replicate 10 false),
              events := bigRoundLog, currently_being_played := true, game_id := 804349,
              still_playing := 24, first_call := false } }

/-- A call during which the clock reports no session silent. -/
def ambientCalm : Ambient (Int × Int) :=
  { quiet := fun _ => false, pos := (0, 0), direction := 0 }

/-- The decoded datagram with the given session id, name and next expected event number,
steering straight; `player_name` is the name padded with NUL to 21 bytes. -/
def hello (session_id : Nat) (name : List Nat) (next_expected_event_no : Nat) :
    ClientMessage :=
  { session_id := session_id, turn_direction := STRAIGHT,
    next_expected_event_no := next_expected_event_no,
    player_name := name ++ List.replicate (21 - name.length) 0 }

/-- The server as constructed from `-w 10 -h 10 -t 90 -s 804349`: no session yet. -/
def emptyServer : Option (Server (Int × Int)) :=
  Server.new { seed := 804349, turning_speed := 90, width := 10, height := 10 }
    (fun _ => 0) (fun _ => Player.new ambientCalm 0 STRAIGHT [])

/-- A server in the round `roundStarted`, with the sessions of "A" and "B" registered:
the log holds three events. -/
def serverInRound : Server (Int × Int) :=
  { buffer := fun _ => 0, rounds_per_sec := 50, keys := [clientA, clientB],
    players := roundStarted.2.1, player_queue := [clientA, clientB],
    game := roundStarted.1 }

/-- The decoded datagram with the given session id, name and turn direction, asking for
event 0. -/
def steer (session_id : Nat) (name : List Nat) (turn_direction : Nat) : ClientMessage :=
  { session_id := session_id, turn_direction := turn_direction,
    next_expected_event_no := 0,
    player_name := name ++ List.replicate (21 - name.length) 0 }

/-- Two endpoints register as "A" and "B" and each then sends a turn direction other
than straight once more. -/
def lobbyTrace : List (ClientMessage × ClientId) :=
  [(steer 1 [65] RIGHT, clientA), (steer 1 [66] LEFT, clientB),
   (steer 1 [65] RIGHT, clientA), (steer 1 [66] LEFT, clientB)]

/-- The server constructed from `-w 10 -h 10 -t 90 -s 804349` after the datagram
(session id 1, name "A", turning right) from `clientA` has been processed. -/
def registeredA : Option (Server (Int × Int)) :=
  emptyServer.bind fun s => Server.run_messages ambientCalm s [(steer 1 [65] RIGHT, clientA)]

/-- A call during which `quiet_for_2s` returns true for every session asked:
`elapsed_time_us` stores the current time into the timestamp it is given and subtracts it
from a local `curr_time` that is never set, so the value is indeterminate. -/
def ambientSilent : Ambient (Int × Int) :=
  { quiet := fun _ => true, pos := (0, 0), direction := 0 }

/-! ## Properties -/

/-! ### CRC-32 -/

theorem shiftRight_xor (a b n : Nat) : (a ^^^ b) >>> n = (a >>> n) ^^^ (b >>> n) := by
  apply Nat.eq_of_testBit_eq; intro i; simp

theorem crc32_bit_step_xor (a b : Nat) :
    crc32_bit_step (a ^^^ b) = crc32_bit_step a ^^^ crc32_bit_step b := by
  unfold crc32_bit_step
  rw [shiftRight_xor]
  have hx : (a ^^^ b) % 2 = (a + b) % 2 := Nat.xor_mod_two_eq
  split_ifs <;> first
    | omega
    | (apply Nat.eq_of_testBit_eq; intro i
       simp only [Nat.testBit_xor]
       cases (a >>> 1).testBit i <;> cases (b >>> 1).testBit i <;>
         cases Nat.testBit 3988292384 i <;> rfl)

theorem crc32_bit_step_iter_xor (n a b : Nat) :
    crc32_bit_step^[n] (a ^^^ b) = crc32_bit_step^[n] a ^^^ crc32_bit_step^[n] b := by
  induction n generalizing a b with
  | zero => rfl
  | succ n ih => simp only [Function.iterate_succ, Function.comp, crc32_bit_step_xor, ih]

theorem build_crc32_step_spec (ch crc : Nat) :
    (build_crc32_step (ch, crc)).1 = ch >>> 1 ∧
    (build_crc32_step (ch, crc)).1 ^^^ (build_crc32_step (ch, crc)).2
      = crc32_bit_step (ch ^^^ crc) := by
  refine ⟨rfl, ?_⟩
  simp only [build_crc32_step, crc32_bit_step, Nat.and_one_is_mod, shiftRight_xor]
  rcases Nat.mod_two_eq_zero_or_one (ch ^^^ crc) with h | h
  · simp [h]
  · simp [h, Nat.xor_assoc]

theorem build_crc32_step_iter (n ch crc : Nat) :
    (build_crc32_step^[n] (ch, crc)).1 = ch >>> n ∧
    (build_crc32_step^[n] (ch, crc)).1 ^^^ (build_crc32_step^[n] (ch, crc)).2
      = crc32_bit_step^[n] (ch ^^^ crc) := by
  induction n generalizing ch crc with
  | zero => exact ⟨rfl, rfl⟩
  | succ n ih =>
    simp only [Function.iterate_succ, Function.comp]
    have h := build_crc32_step_spec ch crc
    obtain ⟨c1, c2, hc⟩ : ∃ c1 c2, build_crc32_step (ch, crc) = (c1, c2) := ⟨_, _, rfl⟩
    rw [hc] at h ⊢
    simp only at h
    obtain ⟨i1, i2⟩ := ih c1 c2
    refine ⟨?_, ?_⟩
    · rw [i1, h.1, ← Nat.shiftRight_add, Nat.add_comm]
    · rw [i2, h.2]

theorem crc32_table_entry_eq (i : Nat) (h : i < 256) :
    crc32_table_entry i = crc32_bit_step^[8] i := by
  have := build_crc32_step_iter 8 i 0
  unfold crc32_table_entry
  rw [this.1] at this
  have h0 : i >>> 8 = 0 := by rw [Nat.shiftRight_eq_div_pow]; exact Nat.div_eq_of_lt h
  rw [h0] at this
  simpa using this.2

theorem crc32_bit_step_iter_shift (n x : Nat) (h : x % 2 ^ n = 0) :
    crc32_bit_step^[n] x = x >>> n := by
  induction n generalizing x with
  | zero => rfl
  | succ n ih =>
    obtain ⟨k, hk⟩ := Nat.dvd_of_mod_eq_zero h
    have hx : x = 2 * (2 ^ n * k) := by rw [hk, pow_succ]; ring
    have h2 : x % 2 = 0 := by omega
    simp only [Function.iterate_succ, Function.comp]
    have hs : crc32_bit_step x = x >>> 1 := by simp [crc32_bit_step, h2]
    have hx1 : x >>> 1 = 2 ^ n * k := by
      rw [Nat.shiftRight_eq_div_pow, pow_one]; omega
    rw [hs, ih _ (by rw [hx1]; simp), ← Nat.shiftRight_add, Nat.add_comm]

theorem crc32_update_eq (crc b : Nat) (hb : b < 256) :
    crc32_update crc b = crc32_bit_step^[8] (crc ^^^ b) := by
  unfold crc32_update
  have e1 : (255 : Nat) = 2 ^ 8 - 1 := by norm_num
  have e2 : (256 : Nat) = 2 ^ 8 := by norm_num
  have ht : (char_to_u32 b ^^^ crc) &&& 0xFF = (crc ^^^ b) % 256 := by
    apply Nat.eq_of_testBit_eq; intro i
    rw [e1, Nat.and_pow_two_sub_one_eq_mod, e2]
    simp only [Nat.testBit_mod_two_pow, Nat.testBit_xor]
    by_cases hi : i < 8
    · have h8 : (char_to_u32 b) % 2 ^ 8 = b % 2 ^ 8 := by
        unfold char_to_u32; split_ifs <;> omega
      have hbit := congrArg (fun x => Nat.testBit x i) h8
      simp only [Nat.testBit_mod_two_pow, hi, decide_True, Bool.true_and] at hbit
      simp [hi, hbit, Bool.xor_comm]
    · simp [hi]
  simp only []
  rw [ht]
  have hlt : (crc ^^^ b) % 256 < 256 := Nat.mod_lt _ (by norm_num)
  have htab : build_crc32_table.getD ((crc ^^^ b) % 256) 0
      = crc32_bit_step^[8] ((crc ^^^ b) % 256) := by
    unfold build_crc32_table
    rw [List.getD_eq_getElem _ _ (by simpa using hlt)]
    simp [crc32_table_entry_eq _ hlt]
  rw [htab]
  have hsplit : crc ^^^ b = ((crc >>> 8) <<< 8) ^^^ ((crc ^^^ b) % 256) := by
    apply Nat.eq_of_testBit_eq; intro i
    rw [e2]
    simp only [Nat.testBit_mod_two_pow, Nat.testBit_xor, Nat.testBit_shiftLeft,
      Nat.testBit_shiftRight]
    by_cases hi : i < 8
    · have : ¬ (i ≥ 8) := by omega
      simp [hi, this]
    · have hb' : b.testBit i = false := by
        apply Nat.testBit_lt_two_pow
        calc b < 2 ^ 8 := hb
          _ ≤ 2 ^ i := Nat.pow_le_pow_right (by norm_num) (by omega)
      have h8 : 8 + (i - 8) = i := by omega
      have : i ≥ 8 := by omega
      simp [hi, hb', h8, this]
  conv_rhs => rw [hsplit]
  rw [crc32_bit_step_iter_xor, crc32_bit_step_iter_shift 8 ((crc >>> 8) <<< 8)]
  · congr 1
    apply Nat.eq_of_testBit_eq; intro i
    simp
  · rw [Nat.shiftLeft_eq]; simp

theorem crc32_update_lt (crc b : Nat) (hc : crc < 2 ^ 32) (hb : b < 256) :
    crc32_update crc b < 2 ^ 32 := by
  rw [crc32_update_eq crc b hb]
  have hstep : ∀ x, x < 2 ^ 32 → crc32_bit_step x < 2 ^ 32 := by
    intro x hx
    have hs : x >>> 1 < 2 ^ 32 := by
      rw [Nat.shiftRight_eq_div_pow]; exact lt_of_le_of_lt (Nat.div_le_self _ _) hx
    unfold crc32_bit_step
    split_ifs
    · exact Nat.xor_lt_two_pow hs (by norm_num)
    · exact hs
  have hiter : ∀ n x, x < 2 ^ 32 → crc32_bit_step^[n] x < 2 ^ 32 := by
    intro n
    induction n with
    | zero => intro x hx; exact hx
    | succ n ih =>
      intro x hx
      simp only [Function.iterate_succ, Function.comp]
      exact ih _ (hstep x hx)
  exact hiter 8 _ (Nat.xor_lt_two_pow hc (lt_trans hb (by norm_num)))

theorem crc32_foldl_eq (s : List Nat) (hs : ∀ b ∈ s, b < 256) (crc : Nat)
    (hc : crc < 2 ^ 32) :
    s.foldl crc32_update crc = s.foldl (fun crc b => crc32_bit_step^[8] (crc ^^^ b)) crc
    ∧ s.foldl crc32_update crc < 2 ^ 32 := by
  induction s generalizing crc with
  | nil => exact ⟨rfl, hc⟩
  | cons b s ih =>
    have hb : b < 256 := hs b (List.mem_cons_self _ _)
    have hs' : ∀ b ∈ s, b < 256 := fun x hx => hs x (List.mem_cons_of_mem _ hx)
    simp only [List.foldl_cons]
    have := ih hs' (crc32_update crc b) (crc32_update_lt crc b hc hb)
    rw [crc32_update_eq crc b hb] at this ⊢
    exact this

theorem u32_complement (c : Nat) (hc : c < 2 ^ 32) : 0xFFFFFFFF - c = c ^^^ 0xFFFFFFFF := by
  apply Nat.eq_of_testBit_eq; intro i
  have h1 : (0xFFFFFFFF : Nat) - c = 2 ^ 32 - (c + 1) := by omega
  have h2 : (0xFFFFFFFF : Nat) = 2 ^ 32 - (0 + 1) := by norm_num
  rw [h1, Nat.testBit_two_pow_sub_succ hc, Nat.testBit_xor, h2,
    Nat.testBit_two_pow_sub_succ (by norm_num)]
  by_cases hi : i < 32
  · simp [hi]
  · have : c.testBit i = false := by
      apply Nat.testBit_lt_two_pow
      calc c < 2 ^ 32 := hc
        _ ≤ 2 ^ i := Nat.pow_le_pow_right (by norm_num) (by omega)
    simp [hi, this]

/-- C3: on every byte sequence the table-driven `calculate_crc32` equals the bit-by-bit
IEEE CRC-32 reference (initial value 0xFFFFFFFF, polynomial 0xEDB88320, final XOR
0xFFFFFFFF), bytes of value 0x80 and above (negative as `char`) included; the check
value of the ASCII bytes "123456789" is 0xCBF43926. -/
theorem calculate_crc32_eq_reference :
    (∀ s : List Nat, (∀ b ∈ s, b < 256) → calculate_crc32 s = crc32_reference s) ∧
    calculate_crc32 [0x31, 0x32, 0x33, 0x34, 0x35, 0x36, 0x37, 0x38, 0x39] = 0xCBF43926 := by
  refine ⟨?_, by decide⟩
  intro s hs
  obtain ⟨h1, h2⟩ := crc32_foldl_eq s hs 0xFFFFFFFF (by norm_num)
  unfold calculate_crc32 crc32_reference
  rw [u32_complement _ h2, h1]

/-- C3 witness: bytes with the top bit set, where `char` is negative. -/
theorem calculate_crc32_eq_reference_witness :
    (∀ b ∈ [0x80, 0xFF, 0x00, 0xC8], b < 256) ∧
    calculate_crc32 [0x80, 0xFF, 0x00, 0xC8] = crc32_reference [0x80, 0xFF, 0x00, 0xC8] :=
  ⟨by decide, calculate_crc32_eq_reference.1 [0x80, 0xFF, 0x00, 0xC8] (by decide)⟩

/-! ### Memory -/

@[simp] theorem u32_be_bytes_length (v : Nat) : (u32_be_bytes v).length = 4 := rfl

@[simp] theorem load_length (m : Mem) (a n : Nat) : (load m a n).length = n := by
  simp [load]

theorem load_add (m : Mem) (a n k : Nat) :
    load m a (n + k) = load m a n ++ load m (a + n) k := by
  unfold load
  rw [List.range_add, List.map_append, List.map_map]
  congr 1
  apply List.map_congr_left
  intro i _
  simp [Nat.add_assoc]

theorem load_write_same (m : Mem) (a : Nat) (bs : List Nat) (n : Nat)
    (h : n = bs.length) : load (write m a bs) a n = bs := by
  subst h
  apply List.ext_getElem
  · simp
  · intro i h1 h2
    simp only [load, write, List.getElem_map, List.getElem_range]
    have : i < bs.length := h2
    simp [this, List.getD_eq_getElem _ _ this]

theorem load_write_disjoint (m : Mem) (a : Nat) (bs : List Nat) (b n : Nat)
    (h : b + n ≤ a ∨ a + bs.length ≤ b) : load (write m a bs) b n = load m b n := by
  unfold load
  apply List.map_congr_left
  intro i hi
  have hi' : i < n := List.mem_range.mp hi
  unfold write
  have : ¬ (a ≤ b + i ∧ b + i < a + bs.length) := by omega
  simp [this]

theorem load_store32_same (m : Mem) (a v : Nat) :
    load (store32 m a v) a 4 = u32_be_bytes v := load_write_same _ _ _ _ rfl

theorem load_store32_disjoint (m : Mem) (a v b n : Nat) (h : b + n ≤ a ∨ a + 4 ≤ b) :
    load (store32 m a v) b n = load m b n := load_write_disjoint _ _ _ _ _ h

theorem load_store8_same (m : Mem) (a v : Nat) :
    load (store8 m a v) a 1 = [v % 256] := load_write_same _ _ _ _ rfl

theorem load_store8_disjoint (m : Mem) (a v b n : Nat) (h : b + n ≤ a ∨ a + 1 ≤ b) :
    load (store8 m a v) b n = load m b n := load_write_disjoint _ _ _ _ _ h

theorem load_memcpy_same (m : Mem) (a : Nat) (src : List Nat) :
    load (memcpy m a src) a src.length = src := load_write_same _ _ _ _ rfl

theorem load_memcpy_before (m : Mem) (a : Nat) (src : List Nat) (b n : Nat)
    (h : b + n ≤ a) : load (memcpy m a src) b n = load m b n :=
  load_write_disjoint _ _ _ _ _ (Or.inl h)

/-! ### Event serialisation -/

theorem store32_trailer (m : Mem) (a size : Nat) :
    load (store32 m (a + size) (calculate_crc32 (load m a size))) a size = load m a size ∧
    load (store32 m (a + size) (calculate_crc32 (load m a size))) (a + size) 4
      = u32_be_bytes (calculate_crc32
          (load (store32 m (a + size) (calculate_crc32 (load m a size))) a size)) := by
  have h1 : load (store32 m (a + size) (calculate_crc32 (load m a size))) a size
      = load m a size := load_store32_disjoint _ _ _ _ _ (Or.inl (le_refl _))
  refine ⟨h1, ?_⟩
  rw [h1]
  exact load_store32_same _ _ _

theorem load_header (length number t : Nat) (m : Mem) (a : Nat) :
    load (store8 (Event.serialize_base length number m a).1 (a + 8) t) a 9
      = u32_be_bytes length ++ u32_be_bytes number ++ [t % 256] := by
  have e : (9 : Nat) = 4 + 4 + 1 := rfl
  rw [e, load_add, load_add]
  simp only [Event.serialize_base, Nat.add_assoc, Nat.reduceAdd]
  simp (disch := omega) only [load_store32_same, load_store32_disjoint, load_store8_same,
    load_store8_disjoint]

/-- The layout `serialize` leaves in memory: the framed fields, then the checksum of
exactly those bytes, and the size returned. -/
theorem serialize_layout (e : Event) (h : e.fits) (m : Mem) (address : Nat) :
    load (e.serialize m address).1 address ((e.serialize m address).2 - 4)
      = e.framed_fields ∧
    load (e.serialize m address).1 (address + ((e.serialize m address).2 - 4)) 4
      = u32_be_bytes (calculate_crc32
          (load (e.serialize m address).1 address ((e.serialize m address).2 - 4))) ∧
    (e.serialize m address).2 = e.framed_fields.length + 4 := by
  cases e with
  | NewGameEvent length number width height player_names =>
    have hfit : player_names.length + 21 < 2 ^ 32 := h
    have hs : (player_names.length + 17) % 2 ^ 32 = player_names.length + 17 :=
      Nat.mod_eq_of_lt (by omega)
    have hs4 : (player_names.length + 17 + 4) % 2 ^ 32 = player_names.length + 17 + 4 :=
      Nat.mod_eq_of_lt (by omega)
    simp only [Event.serialize, hs, hs4, Nat.add_sub_cancel]
    obtain ⟨t1, t2⟩ := store32_trailer
      (memcpy (store32 (store32 (store8 (Event.serialize_base length number m address).1
        (address + 8) NEW_GAME) (address + 9) width) (address + 13) height)
        (address + 17) player_names) address (player_names.length + 17)
    refine ⟨?_, t2, ?_⟩
    · rw [t1]
      have e : player_names.length + 17 = 9 + 4 + 4 + player_names.length := by omega
      rw [e, load_add, load_add, load_add]
      simp only [Nat.add_assoc, Nat.reduceAdd]
      simp (disch := omega) only [load_store32_same, load_store32_disjoint,
        load_memcpy_same, load_memcpy_before, load_header]
      simp [Event.framed_fields, Event.event_data, Event.event_type, Event.length,
        Event.number, NEW_GAME]
    · simp [Event.framed_fields, Event.event_data]; omega
  | PixelEvent length number player_number x y =>
    simp only [Event.serialize]
    obtain ⟨t1, t2⟩ := store32_trailer
      (store32 (store32 (store8 (store8 (Event.serialize_base length number m address).1
        (address + 8) PIXEL) (address + 9) player_number) (address + 10) x)
        (address + 14) y) address 18
    refine ⟨?_, t2, ?_⟩
    · rw [show (22 : Nat) - 4 = 18 from rfl, t1]
      have e : (18 : Nat) = 9 + 1 + 4 + 4 := rfl
      rw [e, load_add, load_add, load_add]
      simp only [Nat.add_assoc, Nat.reduceAdd]
      simp (disch := omega) only [load_store32_same, load_store32_disjoint,
        load_store8_same, load_store8_disjoint, load_header]
      simp [Event.framed_fields, Event.event_data, Event.event_type, Event.length,
        Event.number, PIXEL]
    · simp [Event.framed_fields, Event.event_data]
  | PlayerEliminatedEvent length number player_number =>
    simp only [Event.serialize]
    obtain ⟨t1, t2⟩ := store32_trailer
      (store8 (store8 (Event.serialize_base length number m address).1
        (address + 8) PLAYER_ELIMINATED) (address + 9) player_number) address 10
    refine ⟨?_, t2, ?_⟩
    · rw [show (14 : Nat) - 4 = 10 from rfl, t1]
      have e : (10 : Nat) = 9 + 1 := rfl
      rw [e, load_add]
      simp (disch := omega) only [load_store8_same, load_store8_disjoint, load_header]
      simp [Event.framed_fields, Event.event_data, Event.event_type, Event.length,
        Event.number, PLAYER_ELIMINATED]
    · simp [Event.framed_fields, Event.event_data]
  | GameOverEvent length number =>
    simp only [Event.serialize]
    obtain ⟨t1, t2⟩ := store32_trailer
      (store8 (Event.serialize_base length number m address).1 (address + 8) GAME_OVER)
      address 9
    refine ⟨?_, t2, ?_⟩
    · rw [show (13 : Nat) - 4 = 9 from rfl, t1, load_header]
      simp [Event.framed_fields, Event.event_data, Event.event_type, Event.length,
        Event.number, GAME_OVER]
    · simp [Event.framed_fields, Event.event_data]

/-- C1: for each of the four event types, any field values (the name list of NEW_GAME
within the 32-bit size range), any memory and any address, `serialize` leaves
`len | event_no | event_type | event_data` at the address, followed by four bytes that
are the big-endian `calculate_crc32` of exactly those preceding bytes, and returns the
number of preceding bytes plus 4. -/
theorem serialize_crc_trailer (e : Event) (h : e.fits) (m : Mem) (address : Nat) :
    load (e.serialize m address).1 address ((e.serialize m address).2 - 4)
      = e.framed_fields ∧
    load (e.serialize m address).1 (address + ((e.serialize m address).2 - 4)) 4
      = u32_be_bytes (calculate_crc32
          (load (e.serialize m address).1 address ((e.serialize m address).2 - 4))) ∧
    (e.serialize m address).2 = e.framed_fields.length + 4 :=
  serialize_layout e h m address

/-- C1 witness: the NEW_GAME event of a 10 x 10 round of players "A" and "B". -/
theorem serialize_crc_trailer_witness :
    (Event.newGame 10 10 [65, 0, 66, 0]).fits ∧
    load ((Event.newGame 10 10 [65, 0, 66, 0]).serialize (fun _ => 0) 4).1
        (4 + (((Event.newGame 10 10 [65, 0, 66, 0]).serialize (fun _ => 0) 4).2 - 4)) 4
      = u32_be_bytes (calculate_crc32
          (load ((Event.newGame 10 10 [65, 0, 66, 0]).serialize (fun _ => 0) 4).1 4
            (((Event.newGame 10 10 [65, 0, 66, 0]).serialize (fun _ => 0) 4).2 - 4))) :=
  ⟨by simp [Event.newGame, Event.fits],
   (serialize_crc_trailer (Event.newGame 10 10 [65, 0, 66, 0])
      (by simp [Event.newGame, Event.fits]) (fun _ => 0) 4).2.1⟩

/-- The `len` field written by `serialize` is the stored `length`, for every variant. -/
theorem serialize_len_field (e : Event) (h : e.fits) (m : Mem) (address : Nat) :
    load (e.serialize m address).1 address 4 = u32_be_bytes e.length := by
  cases e with
  | NewGameEvent length number width height player_names =>
    have hfit : player_names.length + 21 < 2 ^ 32 := h
    have hs : (player_names.length + 17) % 2 ^ 32 = player_names.length + 17 :=
      Nat.mod_eq_of_lt (by omega)
    simp (disch := omega) only [Event.serialize, Event.serialize_base, Event.length, hs,
      load_store32_same, load_store32_disjoint, load_store8_disjoint, load_memcpy_before]
  | _ =>
    simp (disch := omega) [Event.serialize, Event.serialize_base, Event.length,
      load_store32_same, load_store32_disjoint, load_store8_disjoint]

theorem be_decode_u32_be_bytes (v : Nat) : be_decode (u32_be_bytes v) = v % 2 ^ 32 := by
  simp only [be_decode, u32_be_bytes, List.foldl_cons, List.foldl_nil]
  omega

/-- PIXEL and PLAYER_ELIMINATED events carry a `len` field equal to the serialized size
minus 8. -/
theorem pixel_eliminated_len_field (number player_number x y : Nat) (m : Mem)
    (address : Nat) :
    be_decode (load ((Event.pixel number player_number x y).serialize m address).1
        address 4)
      = ((Event.pixel number player_number x y).serialize m address).2 - 8 ∧
    be_decode (load ((Event.playerEliminated number player_number).serialize m address).1
        address 4)
      = ((Event.playerEliminated number player_number).serialize m address).2 - 8 := by
  rw [serialize_len_field (Event.pixel number player_number x y) trivial,
    serialize_len_field (Event.playerEliminated number player_number) trivial]
  simp only [be_decode_u32_be_bytes]
  constructor <;> rfl

/-- The `len` field of every NEW_GAME event exceeds the size of
`event_no | event_type | event_data` by 4. -/
theorem newGame_len_field (width height : Nat) (player_names : List Nat)
    (h : player_names.length + 21 < 2 ^ 32) (m : Mem) (address : Nat) :
    be_decode (load ((Event.newGame width height player_names).serialize m address).1
        address 4)
      = ((Event.newGame width height player_names).serialize m address).2 - 8 + 4 := by
  rw [serialize_len_field (Event.newGame width height player_names) h,
    be_decode_u32_be_bytes]
  simp only [Event.newGame, Event.length, Event.serialize, Nat.mod_mod]
  rw [Nat.mod_eq_of_lt (by omega : player_names.length + 17 < 2 ^ 32),
    Nat.mod_eq_of_lt (by omega : player_names.length + 17 + 4 < 2 ^ 32)]
  omega

/-- C2: the NEW_GAME event of a 10 x 10 round of players "A" and "B" serializes to 25
bytes, of which 17 lie between `len` and `crc32`, with a `len` field of 21. -/
theorem newGame_len_field_off_by_four :
    ((Event.newGame 10 10 [65, 0, 66, 0]).serialize (fun _ => 0) 0).2 = 25 ∧
    be_decode (load ((Event.newGame 10 10 [65, 0, 66, 0]).serialize (fun _ => 0) 0).1 0 4)
      = 21 ∧
    ((Event.newGame 10 10 [65, 0, 66, 0]).serialize (fun _ => 0) 0).2 - 8 = 17 := by
  refine ⟨by decide, ?_, by decide⟩
  rw [serialize_len_field (Event.newGame 10 10 [65, 0, 66, 0])
    (by simp [Event.newGame, Event.fits]), be_decode_u32_be_bytes]
  decide

/-! ### Client message decoding -/

theorem char_in_range (b : Nat) (hb : b < 256) :
    ¬ (char_to_int b < 33 ∨ char_to_int b > 126) ↔ (33 ≤ b ∧ b ≤ 126) := by
  unfold char_to_int
  split_ifs <;> omega

theorem deserialize_name_ok (buffer : Mem) (hb : ∀ a, buffer a < 256) (k i : Nat)
    (name : List Nat)
    (h : ∀ j, j < k → 33 ≤ buffer (i + j + 13) ∧ buffer (i + j + 13) ≤ 126) :
    ∃ name', deserialize_name buffer k i name = .ok name' ∧ name'.length = name.length ∧
      ∀ j, name'[j]? =
        if i ≤ j ∧ j < i + k ∧ j < name.length then some (buffer (j + 13)) else name[j]? := by
  induction k generalizing i name with
  | zero =>
    refine ⟨name, rfl, rfl, ?_⟩
    intro j
    have : ¬ (i ≤ j ∧ j < i ∧ j < name.length) := by omega
    simp [this]
  | succ k ih =>
    have h0 := h 0 (by omega)
    have hc : ¬ (char_to_int (buffer (i + 13)) < 33 ∨ char_to_int (buffer (i + 13)) > 126) :=
      (char_in_range _ (hb _)).mpr (by simpa using h0)
    obtain ⟨name', e1, e2, e3⟩ := ih (i + 1) (name.set i (buffer (i + 13)))
      (fun j hj => by
        have := h (j + 1) (by omega)
        have e : i + 1 + j + 13 = i + (j + 1) + 13 := by omega
        rw [e]; exact this)
    refine ⟨name', ?_, ?_, ?_⟩
    · simp only [deserialize_name, hc, if_false]
      exact e1
    · rw [e2, List.length_set]
    · intro j
      rw [e3 j, List.length_set, List.getElem?_set]
      by_cases hj : i = j
      · subst hj
        by_cases hl : i < name.length
        · have c1 : ¬ (i + 1 ≤ i ∧ i < i + 1 + k ∧ i < name.length) := by omega
          have c2 : i ≤ i ∧ i < i + (k + 1) ∧ i < name.length := by omega
          simp [c1, c2, hl]
        · have c1 : ¬ (i + 1 ≤ i ∧ i < i + 1 + k ∧ i < name.length) := by omega
          have c2 : ¬ (i ≤ i ∧ i < i + (k + 1) ∧ i < name.length) := by omega
          simp [c1, c2, hl]
          omega
      · by_cases hc2 : i ≤ j ∧ j < i + (k + 1) ∧ j < name.length
        · have c1 : i + 1 ≤ j ∧ j < i + 1 + k ∧ j < name.length := by omega
          simp [c1, hc2]
        · have c1 : ¬ (i + 1 ≤ j ∧ j < i + 1 + k ∧ j < name.length) := by omega
          simp [c1, hc2, hj]

theorem deserialize_name_error (buffer : Mem) (hb : ∀ a, buffer a < 256) (k i : Nat)
    (name : List Nat)
    (h : ∃ j, j < k ∧ ¬ (33 ≤ buffer (i + j + 13) ∧ buffer (i + j + 13) ≤ 126)) :
    deserialize_name buffer k i name = .error .mk := by
  induction k generalizing i name with
  | zero => obtain ⟨j, hj, _⟩ := h; omega
  | succ k ih =>
    simp only [deserialize_name]
    by_cases hc : char_to_int (buffer (i + 13)) < 33 ∨ char_to_int (buffer (i + 13)) > 126
    · simp [hc]
    · simp only [hc, if_false]
      apply ih
      obtain ⟨j, hj, hbad⟩ := h
      cases j with
      | zero => exact absurd ((char_in_range _ (hb _)).mp hc) (by simpa using hbad)
      | succ j =>
        refine ⟨j, by omega, ?_⟩
        have e : i + 1 + j + 13 = i + (j + 1) + 13 := by omega
        rw [e]; exact hbad

/-- C4: `ClientMessage::deserialize` on an `n`-byte buffer succeeds exactly when
`13 ≤ n ≤ 33` and every byte at an offset from 13 up to `n-1` lies in `[33,126]`; on
success `session_id` is the big-endian value of bytes 0..7, `turn_direction` is byte 8,
`next_expected_event_no` is the big-endian value of bytes 9..12 and `player_name` starts
with bytes 13..n-1 followed by a NUL; otherwise `DeserializationException` is thrown. -/
theorem deserialize_iff (self : ClientMessage) (hname : self.player_name.length = 21)
    (buffer : Mem) (hb : ∀ a, buffer a < 256) (n : Int) :
    ((∃ r, self.deserialize buffer n = .ok r) ↔
      (13 ≤ n ∧ n ≤ 33 ∧
        ∀ k : Nat, 13 ≤ k → (k : Int) < n → 33 ≤ buffer k ∧ buffer k ≤ 126)) ∧
    (∀ r, self.deserialize buffer n = .ok r →
      r.session_id = be_decode (load buffer 0 8) ∧
      r.turn_direction = buffer 8 ∧
      r.next_expected_event_no = be_decode (load buffer 9 4) ∧
      (n - 13).toNat ≤ 20 ∧
      r.player_name.take ((n - 13).toNat + 1) = load buffer 13 (n - 13).toNat ++ [0]) ∧
    ((¬ ∃ r, self.deserialize buffer n = .ok r) →
      self.deserialize buffer n = .error .mk) := by
  by_cases hn : n < 13 ∨ n > 33
  · have herr : self.deserialize buffer n = .error .mk := by
      simp [ClientMessage.deserialize, hn]
    refine ⟨?_, ?_, fun _ => herr⟩
    · rw [herr]
      constructor
      · rintro ⟨r, hr⟩; cases hr
      · rintro ⟨h1, h2, _⟩; omega
    · intro r hr; rw [herr] at hr; cases hr
  · have hn1 : 13 ≤ n := by omega
    have hn2 : n ≤ 33 := by omega
    obtain ⟨c, hc⟩ : ∃ c : Nat, (n - 13).toNat = c := ⟨_, rfl⟩
    have hcn : n = (c : Int) + 13 := by omega
    have hc20 : c ≤ 20 := by omega
    by_cases hall : ∀ k : Nat, 13 ≤ k → (k : Int) < n → 33 ≤ buffer k ∧ buffer k ≤ 126
    · obtain ⟨name', e1, e2, e3⟩ := deserialize_name_ok buffer hb c 0 self.player_name
        (fun j hj => by
          have := hall (j + 13) (by omega) (by omega)
          simpa using this)
      have hok : self.deserialize buffer n = .ok
          { session_id := be_decode (load buffer 0 8), turn_direction := buffer 8,
            next_expected_event_no := be_decode (load buffer 9 4),
            player_name := name'.set c 0 } := by
        simp [ClientMessage.deserialize, hn, hc, e1]
      refine ⟨?_, ?_, ?_⟩
      · rw [hok]
        exact ⟨fun _ => ⟨hn1, hn2, hall⟩, fun _ => ⟨_, rfl⟩⟩
      · intro r hr
        rw [hok] at hr
        cases hr
        refine ⟨rfl, rfl, rfl, by omega, ?_⟩
        rw [hc]
        apply List.ext_getElem?
        intro j
        rw [List.getElem?_take]
        by_cases hj : j < c + 1
        · simp only [hj, if_true]
          rw [List.getElem?_set, e3 j, hname]
          by_cases hjc : c = j
          · subst hjc
            have : c < name'.length := by omega
            simp [this]
          · have hj' : j < c := by omega
            have c1 : 0 ≤ j ∧ j < 0 + c ∧ j < 21 := by omega
            simp only [hjc, if_false, c1, and_self, if_true]
            rw [List.getElem?_append_left (by simpa using hj')]
            simp [load, hj', Nat.add_comm]
        · simp only [hj, if_false]
          symm
          apply List.getElem?_eq_none
          simp; omega
      · intro hno
        exact absurd ⟨_, hok⟩ hno
    · have herr : self.deserialize buffer n = .error .mk := by
        have : deserialize_name buffer c 0 self.player_name = .error .mk := by
          apply deserialize_name_error buffer hb
          push_neg at hall
          obtain ⟨k, hk1, hk2, hk3⟩ := hall
          refine ⟨k - 13, by omega, ?_⟩
          have e : 0 + (k - 13) + 13 = k := by omega
          rw [e]
          intro hh
          exact absurd hh.2 (by have := hk3 hh.1; omega)
        simp [ClientMessage.deserialize, hn, hc, this]
      refine ⟨?_, ?_, fun _ => herr⟩
      · rw [herr]
        constructor
        · rintro ⟨r, hr⟩; cases hr
        · rintro ⟨_, _, h3⟩; exact absurd h3 hall
      · intro r hr; rw [herr] at hr; cases hr

theorem sampleDatagram_bytes (a : Nat) : sampleDatagram a < 256 := by
  unfold sampleDatagram
  rcases Nat.lt_or_ge a 15 with h | h
  · interval_cases a <;> simp
  · rw [List.getD_eq_default _ _ (by simpa using h)]
    norm_num

/-- C4 witness: a well-formed 15-byte datagram. -/
theorem deserialize_iff_witness :
    sampleMessage.player_name.length = 21 ∧ (∀ a, sampleDatagram a < 256) ∧
    ((∃ r, sampleMessage.deserialize sampleDatagram 15 = .ok r) ↔
      ((13 : Int) ≤ 15 ∧ (15 : Int) ≤ 33 ∧
        ∀ k : Nat, 13 ≤ k → (k : Int) < 15 →
          33 ≤ sampleDatagram k ∧ sampleDatagram k ≤ 126)) :=
  ⟨rfl, sampleDatagram_bytes,
    (deserialize_iff sampleMessage rfl sampleDatagram sampleDatagram_bytes 15).1⟩

/-! ### The generator -/

theorem random_nth_spec (g : Game) (hs : g.seed < 2 ^ 32) (hf : g.first_call = true)
    (k : Nat) :
    (g.random_nth k).1 = Game.lcg_reference g.seed k ∧
    (g.random_nth k).2.seed = Game.lcg_reference g.seed k ∧
    (g.random_nth k).2.first_call = false ∧
    Game.lcg_reference g.seed k < 2 ^ 32 := by
  induction k with
  | zero =>
    simpa [Game.random_nth, Game.random, hf, Game.lcg_reference] using hs
  | succ k ih =>
    obtain ⟨_, h2, h3, h4⟩ := ih
    have hprod : Game.lcg_reference g.seed k * 279410273 < 2 ^ 64 := by omega
    have hlt : Game.lcg_reference g.seed k * 279410273 % 4294967291 < 2 ^ 32 := by omega
    simp only [Game.random_nth, Game.random, h3, h2, Game.lcg_reference,
      Nat.mod_eq_of_lt hprod, Nat.mod_eq_of_lt hlt]
    simpa using hlt

/-- C5: from a fresh generator with a 32-bit seed, call number `k` of `Game::random`
returns `r k`, where `r 0 = seed` and `r (k+1) = r k * 279410273 mod 4294967291` in
exact arithmetic: the 64-bit product never wraps and every value fits in 32 bits. -/
theorem random_sequence (g : Game) (hs : g.seed < 2 ^ 32) (hf : g.first_call = true)
    (k : Nat) :
    (g.random_nth k).1 = Game.lcg_reference g.seed k ∧
    Game.lcg_reference g.seed k < 2 ^ 32 ∧
    Game.lcg_reference g.seed k * 279410273 < 2 ^ 64 := by
  obtain ⟨h1, _, _, h4⟩ := random_nth_spec g hs hf k
  exact ⟨h1, h4, by omega⟩

/-- C5 witness: the fourth value drawn from seed 123. -/
theorem random_sequence_witness :
    (freshGame 123).seed < 2 ^ 32 ∧ (freshGame 123).first_call = true ∧
    ((freshGame 123).random_nth 3).1 = Game.lcg_reference (freshGame 123).seed 3 :=
  ⟨by decide, rfl, (random_sequence (freshGame 123) (by decide) rfl 3).1⟩

/-! ### Names and their order -/

theorem string_lt_total (a b : List Nat) : string_lt b a = false ∨ string_lt a b = false := by
  induction a generalizing b with
  | nil => cases b <;> simp [string_lt]
  | cons x xs ih =>
    cases b with
    | nil => simp [string_lt]
    | cons y ys =>
      simp only [string_lt]
      rcases Nat.lt_trichotomy x y with h | h | h
      · have : ¬ y < x := by omega
        simp [h, this]
      · subst h
        simpa using ih ys
      · have : ¬ x < y := by omega
        simp [h, this]

theorem string_le_trans (a b c : List Nat) (hab : string_lt b a = false)
    (hbc : string_lt c b = false) : string_lt c a = false := by
  induction a generalizing b c with
  | nil => cases c <;> rfl
  | cons x xs ih =>
    cases b with
    | nil => simp [string_lt] at hab
    | cons y ys =>
      cases c with
      | nil => simp [string_lt] at hbc
      | cons z zs =>
        simp only [string_lt] at hab hbc ⊢
        split_ifs at hab hbc ⊢ <;>
          first
            | rfl
            | exact ih ys zs hab hbc
            | omega

theorem name_le_total {Pos : Type} (store : PlayerMap Pos) :
    IsTotal PlayerMapIt (Game.name_le store) :=
  ⟨fun a b => string_lt_total (store a).name (store b).name⟩

theorem name_le_trans {Pos : Type} (store : PlayerMap Pos) :
    IsTrans PlayerMapIt (Game.name_le store) :=
  ⟨fun a b c hab hbc => string_le_trans (store a).name (store b).name (store c).name hab hbc⟩

theorem string_lt_antisymm (a b : List Nat) (hab : string_lt b a = false)
    (hba : string_lt a b = false) : a = b := by
  induction a generalizing b with
  | nil =>
    cases b with
    | nil => rfl
    | cons y ys => simp [string_lt] at hba
  | cons x xs ih =>
    cases b with
    | nil => simp [string_lt] at hab
    | cons y ys =>
      simp only [string_lt] at hab hba
      rcases Nat.lt_trichotomy x y with h | h | h
      · have : ¬ y < x := by omega
        simp [h, this] at hba
      · subst h
        simp only [lt_self_iff_false, if_false] at hab hba
        rw [ih ys hab hba]
      · have : ¬ x < y := by omega
        simp [h, this] at hab

/-- Whatever order a sort gives to players of equal name, the sequence of names of the
sorted players is the same: two name-sorted arrangements of the same players list the
same names. -/
theorem sorted_names_unique {Pos : Type} (store : PlayerMap Pos) (l1 l2 : List PlayerMapIt)
    (hp : l1.Perm l2) (h1 : l1.Pairwise (Game.name_le store))
    (h2 : l2.Pairwise (Game.name_le store)) :
    l1.map (fun it => (store it).name) = l2.map (fun it => (store it).name) := by
  haveI : IsAntisymm (List Nat) (fun a b => string_lt b a = false) :=
    ⟨fun a b hab hba => string_lt_antisymm a b hab hba⟩
  have s1 : (l1.map (fun it => (store it).name)).Sorted
      (fun a b => string_lt b a = false) := List.pairwise_map.mpr h1
  have s2 : (l2.map (fun it => (store it).name)).Sorted
      (fun a b => string_lt b a = false) := List.pairwise_map.mpr h2
  exact List.eq_of_perm_of_sorted (hp.map _) s1 s2

/-! ### Start of a round -/

theorem random_frame (g : Game) :
    g.random.2.width = g.width ∧ g.random.2.height = g.height ∧
    g.random.2.board = g.board ∧ g.random.2.events = g.events ∧
    g.random.2.players = g.players ∧ g.random.2.still_playing = g.still_playing ∧
    g.random.2.currently_being_played = g.currently_being_played ∧
    g.random.2.turning_speed = g.turning_speed ∧ g.random.2.game_id = g.game_id := by
  unfold Game.random
  split_ifs <;> simp

theorem is_position_valid_congr (g g' : Game) (hw : g'.width = g.width)
    (hh : g'.height = g.height) (hb : g'.board = g.board) (x y : Int) :
    g'.is_position_valid x y = g.is_position_valid x y := by
  simp [Game.is_position_valid, hw, hh, hb]

theorem start_event_congr {Pos : Type} (M : Motion Pos) (store : PlayerMap Pos)
    (g g' : Game) (hw : g'.width = g.width) (hh : g'.height = g.height)
    (hb : g'.board = g.board) (i : Nat) (it : PlayerMapIt) :
    Game.start_event M store g' i it = Game.start_event M store g i it := by
  simp [Game.start_event, is_position_valid_congr g g' hw hh hb]

theorem start_init_spec {Pos : Type} (M : Motion Pos) (l : List PlayerMapIt) (g : Game)
    (store : PlayerMap Pos) (names : List Nat) :
    (Game.start_init M l (g, store, names)).2.2
      = names ++ (l.map (fun it => (store it).name ++ [0])).flatten ∧
    (∀ it, ((Game.start_init M l (g, store, names)).2.1 it).name = (store it).name ∧
      ((Game.start_init M l (g, store, names)).2.1 it).state = (store it).state) ∧
    (Game.start_init M l (g, store, names)).1.width = g.width ∧
    (Game.start_init M l (g, store, names)).1.height = g.height ∧
    (Game.start_init M l (g, store, names)).1.board = g.board ∧
    (Game.start_init M l (g, store, names)).1.events = g.events ∧
    (Game.start_init M l (g, store, names)).1.players = g.players ∧
    (Game.start_init M l (g, store, names)).1.still_playing = g.still_playing ∧
    (Game.start_init M l (g, store, names)).1.currently_being_played
      = g.currently_being_played := by
  induction l generalizing g store names with
  | nil => simp [Game.start_init]
  | cons it rest ih =>
    simp only [Game.start_init]
    obtain ⟨a1, a2, a3, a4, a5, a6, a7, _⟩ := random_frame g
    obtain ⟨b1, b2, b3, b4, b5, b6, b7, _⟩ := random_frame g.random.2
    obtain ⟨c1, c2, c3, c4, c5, c6, c7, _⟩ := random_frame g.random.2.random.2
    have hstore : ∀ j, (Function.update store it
        ((store it).init (M.init (g.random.1 % g.width)
          (g.random.2.random.1 % g.height)) (g.random.2.random.2.random.1 % 360)) j).name
          = (store j).name ∧
        (Function.update store it
        ((store it).init (M.init (g.random.1 % g.width)
          (g.random.2.random.1 % g.height)) (g.random.2.random.2.random.1 % 360)) j).state
          = (store j).state := by
      intro j
      by_cases hj : j = it
      · subst hj; simp [Player.init]
      · simp [Function.update, hj]
    obtain ⟨i1, i2, i3, i4, i5, i6, i7, i8, i9⟩ := ih g.random.2.random.2.random.2
      (Function.update store it
        ((store it).init (M.init (g.random.1 % g.width)
          (g.random.2.random.1 % g.height)) (g.random.2.random.2.random.1 % 360)))
      (names ++ (Function.update store it
        ((store it).init (M.init (g.random.1 % g.width)
          (g.random.2.random.1 % g.height)) (g.random.2.random.2.random.1 % 360)) it).name
        ++ [0])
    refine ⟨?_, ?_, ?_, ?_, ?_, ?_, ?_, ?_, ?_⟩
    · rw [i1, (hstore it).1]
      have : (rest.map (fun j => (Function.update store it
          ((store it).init (M.init (g.random.1 % g.width)
            (g.random.2.random.1 % g.height)) (g.random.2.random.2.random.1 % 360)) j).name
            ++ [0]))
          = rest.map (fun j => (store j).name ++ [0]) :=
        List.map_congr_left (fun j _ => by rw [(hstore j).1])
      rw [this]
      simp [List.append_assoc]
    · intro j
      exact ⟨(i2 j).1.trans (hstore j).1, (i2 j).2.trans (hstore j).2⟩
    · rw [i3, c1, b1, a1]
    · rw [i4, c2, b2, a2]
    · rw [i5, c3, b3, a3]
    · rw [i6, c4, b4, a4]
    · rw [i7, c5, b5, a5]
    · rw [i8, c6, b6, a6]
    · rw [i9, c7, b7, a7]

theorem start_events_spec {Pos : Type} (M : Motion Pos) (store : PlayerMap Pos)
    (l : List PlayerMapIt) (i : Nat) (g : Game) :
    (Game.start_events M store l i g).events
      = g.events ++ (l.enumFrom i).map (fun x => Game.start_event M store g x.1 x.2) ∧
    (Game.start_events M store l i g).width = g.width ∧
    (Game.start_events M store l i g).height = g.height ∧
    (Game.start_events M store l i g).board = g.board ∧
    (Game.start_events M store l i g).players = g.players ∧
    (Game.start_events M store l i g).still_playing = g.still_playing ∧
    (Game.start_events M store l i g).currently_being_played
      = g.currently_being_played := by
  induction l generalizing i g with
  | nil => simp [Game.start_events]
  | cons it rest ih =>
    simp only [Game.start_events]
    obtain ⟨e1, e2, e3, e4, e5, e6, e7⟩ := ih (i + 1)
      { g with events := g.events ++ [Game.start_event M store g i it] }
    refine ⟨?_, e2, e3, e4, e5, e6, e7⟩
    rw [e1]
    simp only [List.enumFrom_cons, List.map_cons, List.append_assoc, List.singleton_append]
    congr 2

theorem start_setup_spec {Pos : Type} (g : Game) (store : PlayerMap Pos)
    (ps : List PlayerMapIt) :
    (Game.start_setup g store ps).width = g.width ∧
    (Game.start_setup g store ps).height = g.height ∧
    (Game.start_setup g store ps).board = g.board ∧
    (Game.start_setup g store ps).events = g.events ∧
    (Game.start_setup g store ps).players = ps.insertionSort (Game.name_le store) ∧
    (Game.start_setup g store ps).still_playing = ps.length % 256 ∧
    (Game.start_setup g store ps).currently_being_played = true := by
  obtain ⟨a1, a2, a3, a4, a5, a6, a7, _⟩ := random_frame
    { g with currently_being_played := true, still_playing := ps.length % 256,
             players := ps }
  simp only [Game.start_setup]
  exact ⟨a1, a2, a3, a4, by rw [a5], a6, a7⟩

/-- The log and the frame after `start`: the previous log, then the NEW_GAME event, then
one event per participant in sorted order; the board, width and height are unchanged,
no player changes name or state. -/
theorem start_spec {Pos : Type} (M : Motion Pos) (g : Game) (store : PlayerMap Pos)
    (ps : List PlayerMapIt) :
    (Game.start M g store ps).1.players = ps.insertionSort (Game.name_le store) ∧
    (Game.start M g store ps).1.events
      = g.events ++
        Event.newGame g.width g.height
          (((ps.insertionSort (Game.name_le store)).map
            (fun it => (store it).name ++ [0])).flatten) ::
        ((ps.insertionSort (Game.name_le store)).enum.map
          (fun x => Game.start_event M (Game.start M g store ps).2.1 g x.1 x.2)) ∧
    (∀ it, ((Game.start M g store ps).2.1 it).name = (store it).name ∧
      ((Game.start M g store ps).2.1 it).state = (store it).state) ∧
    (Game.start M g store ps).1.width = g.width ∧
    (Game.start M g store ps).1.height = g.height ∧
    (Game.start M g store ps).1.board = g.board ∧
    (Game.start M g store ps).1.still_playing = ps.length % 256 ∧
    (Game.start M g store ps).1.currently_being_played = true := by
  obtain ⟨hg1w, hg1h, hg1b, hg1e, hg1p, hg1s, hg1c⟩ := start_setup_spec g store ps
  obtain ⟨i1, i2, i3, i4, i5, i6, i7, i8, i9⟩ :=
    start_init_spec M (Game.start_setup g store ps).players (Game.start_setup g store ps)
      store []
  simp only [Game.start]
  generalize Game.start_init M (Game.start_setup g store ps).players
    (Game.start_setup g store ps, store, []) = s at *
  obtain ⟨e1, e2, e3, e4, e5, e6, e7⟩ := start_events_spec M s.2.1 s.1.players 0
    { s.1 with events := s.1.events ++ [Event.newGame s.1.width s.1.height s.2.2] }
  simp only at e1 e2 e3 e4 e5 e6 e7
  refine ⟨?_, ?_, i2, ?_, ?_, ?_, ?_, ?_⟩
  · rw [e5, i7, hg1p]
  · rw [e1, i6, hg1e, i3, i4, hg1w, hg1h, i1, i7, hg1p, List.enum]
    simp only [List.nil_append, List.append_assoc, List.singleton_append]
    congr 2
    apply List.map_congr_left
    intro x _
    apply start_event_congr
    · simp [i3, hg1w]
    · simp [i4, hg1h]
    · simp [i5, hg1b]
  · rw [e2, i3, hg1w]
  · rw [e3, i4, hg1h]
  · rw [e4, i5, hg1b]
  · rw [e6, i8, hg1s]
  · rw [e7, i9, hg1c]

/-- C7: for every vector of participants, `start` sorts them by ascending byte-wise
name; the NEW_GAME event it appends carries the configured width and height and the
concatenation, in that order, of each name followed by one NUL byte; and the event
appended for index `i` (a byte, so `i < 256`) is `PIXEL(i, cell)` or
`PLAYER_ELIMINATED(i)` for the `i`-th participant of that sorted order. -/
theorem start_new_game_names {Pos : Type} (M : Motion Pos) (g : Game)
    (store : PlayerMap Pos) (ps : List PlayerMapIt) :
    (ps.insertionSort (Game.name_le store)).Perm ps ∧
    (ps.insertionSort (Game.name_le store)).Pairwise
      (fun a b => string_lt (store b).name (store a).name = false) ∧
    (Game.start M g store ps).1.players = ps.insertionSort (Game.name_le store) ∧
    (∀ it, ((Game.start M g store ps).2.1 it).name = (store it).name) ∧
    (Game.start M g store ps).1.events[g.events.length]?
      = some (Event.NewGameEvent
          ((((ps.insertionSort (Game.name_le store)).map
              (fun it => (store it).name ++ [0])).flatten.length + 17) % 2 ^ 32)
          0 g.width g.height
          (((ps.insertionSort (Game.name_le store)).map
              (fun it => (store it).name ++ [0])).flatten)) ∧
    ∀ (i : Nat) (hi : i < (ps.insertionSort (Game.name_le store)).length), i < 256 →
      (Game.start M g store ps).1.events[g.events.length + 1 + i]?
        = some
          (if g.is_position_valid
              (M.cell ((Game.start M g store ps).2.1
                ((ps.insertionSort (Game.name_le store)).get ⟨i, hi⟩)).pos).1
              (M.cell ((Game.start M g store ps).2.1
                ((ps.insertionSort (Game.name_le store)).get ⟨i, hi⟩)).pos).2
           then Event.PixelEvent 14 (i + 1) i
              ((M.cell ((Game.start M g store ps).2.1
                ((ps.insertionSort (Game.name_le store)).get ⟨i, hi⟩)).pos).1
                  % 2 ^ 32).toNat
              ((M.cell ((Game.start M g store ps).2.1
                ((ps.insertionSort (Game.name_le store)).get ⟨i, hi⟩)).pos).2
                  % 2 ^ 32).toNat
           else Event.PlayerEliminatedEvent 6 (i + 1) i) := by
  obtain ⟨h1, h2, h3, _⟩ := start_spec M g store ps
  haveI := name_le_total store
  haveI := name_le_trans store
  refine ⟨List.perm_insertionSort _ _, List.sorted_insertionSort (Game.name_le store) ps,
    h1, fun it => (h3 it).1, ?_, ?_⟩
  · rw [h2, List.getElem?_append_right (le_refl _)]
    simp [Event.newGame]
  · intro i hi h256
    rw [h2, List.getElem?_append_right (by omega)]
    have e : g.events.length + 1 + i - g.events.length = i + 1 := by omega
    rw [e, List.getElem?_cons_succ, List.getElem?_map, List.enum]
    have hget : (List.enumFrom 0 (ps.insertionSort (Game.name_le store)))[i]?
        = some (i, (ps.insertionSort (Game.name_le store)).get ⟨i, hi⟩) := by
      rw [List.getElem?_enumFrom]
      simp [List.getElem?_eq_getElem hi]
    rw [hget]
    have m1 : (i + 1) % 2 ^ 32 = i + 1 := Nat.mod_eq_of_lt (by omega)
    have m2 : i % 256 = i := Nat.mod_eq_of_lt h256
    simp only [Option.map_some', Game.start_event, Player.get_position_int, Event.pixel,
      Event.playerEliminated, m1, m2]

/-- C7 witness: the round of "A" and "B" handed over as `[clientB, clientA]`, at
index 1. -/
theorem start_new_game_names_witness :
    (1 : Nat) < 256 ∧
    (Game.start gridMotion (freshGame 123) twoPlayers [clientB, clientA]).1.events[
        (freshGame 123).events.length + 1 + 1]?
      = some
        (if (freshGame 123).is_position_valid
            (gridMotion.cell
              ((Game.start gridMotion (freshGame 123) twoPlayers [clientB, clientA]).2.1
                (([clientB, clientA].insertionSort (Game.name_le twoPlayers)).get
                  ⟨1, by decide⟩)).pos).1
            (gridMotion.cell
              ((Game.start gridMotion (freshGame 123) twoPlayers [clientB, clientA]).2.1
                (([clientB, clientA].insertionSort (Game.name_le twoPlayers)).get
                  ⟨1, by decide⟩)).pos).2
         then Event.PixelEvent 14 (1 + 1) 1
            ((gridMotion.cell
              ((Game.start gridMotion (freshGame 123) twoPlayers [clientB, clientA]).2.1
                (([clientB, clientA].insertionSort (Game.name_le twoPlayers)).get
                  ⟨1, by decide⟩)).pos).1 % 2 ^ 32).toNat
            ((gridMotion.cell
              ((Game.start gridMotion (freshGame 123) twoPlayers [clientB, clientA]).2.1
                (([clientB, clientA].insertionSort (Game.name_le twoPlayers)).get
                  ⟨1, by decide⟩)).pos).2 % 2 ^ 32).toNat
         else Event.PlayerEliminatedEvent 6 (1 + 1) 1) :=
  ⟨by decide,
    (start_new_game_names gridMotion (freshGame 123) twoPlayers [clientB, clientA]).2.2.2.2.2
      1 (by decide) (by decide)⟩

/-- Every `start` appends to the log it finds: the previous events stay in front, the
log grows by one NEW_GAME event and one event per participant, and the board is the one
found. -/
theorem start_appends_to_log {Pos : Type} (M : Motion Pos) (g : Game)
    (store : PlayerMap Pos) (ps : List PlayerMapIt) :
    (Game.start M g store ps).1.events.take g.events.length = g.events ∧
    (Game.start M g store ps).1.events.length = g.events.length + (ps.length + 1) ∧
    (Game.start M g store ps).1.board = g.board := by
  obtain ⟨_, h2, _, _, _, h6, _⟩ := start_spec M g store ps
  refine ⟨?_, ?_, h6⟩
  · rw [h2, List.take_left]
  · rw [h2]
    simp [List.enum, List.length_insertionSort]

theorem getD_clear_row (l : List Bool) (h : ∀ c ∈ l, c = false) (n : Nat) :
    l.getD n false = false := by
  by_cases hn : n < l.length
  · rw [List.getD_eq_getElem _ _ hn]
    exact h _ (List.getElem_mem hn)
  · rw [List.getD_eq_default _ _ (by omega)]

theorem getD_clear_board (b : List (List Bool)) (h : ∀ row ∈ b, ∀ c ∈ row, c = false)
    (n : Nat) : ∀ c ∈ b.getD n [], c = false := by
  by_cases hn : n < b.length
  · rw [List.getD_eq_getElem _ _ hn]
    exact h _ (List.getElem_mem hn)
  · rw [List.getD_eq_default _ _ (by omega)]
    simp

theorem is_position_valid_clear_board (g : Game)
    (hb : ∀ row ∈ g.board, ∀ c ∈ row, c = false) (x y : Int) :
    g.is_position_valid x y = false := by
  unfold Game.is_position_valid
  split_ifs
  · rfl
  · exact getD_clear_row _ (getD_clear_board g.board hb _) _

/-- On a board without painted cells `start` appends a PLAYER_ELIMINATED event for every
participant, whatever its seeded cell. -/
theorem start_clear_board {Pos : Type} (M : Motion Pos) (g : Game)
    (store : PlayerMap Pos) (ps : List PlayerMapIt)
    (hb : ∀ row ∈ g.board, ∀ c ∈ row, c = false) :
    (Game.start M g store ps).1.events
      = g.events ++
        Event.newGame g.width g.height
          (((ps.insertionSort (Game.name_le store)).map
            (fun it => (store it).name ++ [0])).flatten) ::
        ((ps.insertionSort (Game.name_le store)).enum.map
          (fun x => Event.playerEliminated ((x.1 + 1) % 2 ^ 32) (x.1 % 256))) := by
  rw [(start_spec M g store ps).2.1]
  congr 2
  apply List.map_congr_left
  intro x _
  simp [Game.start_event, is_position_valid_clear_board g hb]

/-- The board of a constructed game has no painted cell. -/
theorem new_board_clear (o : CliOptions) (g : Game) (h : Game.new o = some g) :
    ∀ row ∈ g.board, ∀ c ∈ row, c = false := by
  unfold Game.new at h
  split_ifs at h
  cases h
  intro row hrow c hc
  rw [List.eq_of_mem_replicate hrow] at hc
  exact List.eq_of_mem_replicate hc

/-- The game `freshGame seed` is the one the constructor builds from the options
`-w 10 -h 10 -t 90 -s seed`. -/
theorem freshGame_eq_new (seed : Nat) (h : seed < 2 ^ 32) :
    Game.new { seed := (seed : Int), turning_speed := 90, width := 10, height := 10 }
      = some (freshGame seed) := by
  have e : ((seed : Int) % 4294967296).toNat = seed := by omega
  simp [Game.new, freshGame, e]

/-! ### A turn -/

theorem process_turn_loop_spec {Pos : Type} (M : Motion Pos) (l : List PlayerMapIt)
    (i : Nat) (g : Game) (store : PlayerMap Pos) (counter : Int) :
    ∃ new : List Event,
      (Game.process_turn_loop M l i (g, store, counter)).1.events = g.events ++ new ∧
      (Game.process_turn_loop M l i (g, store, counter)).2.2 = counter + new.length ∧
      new.map Event.number
        = (List.range new.length).map (fun k => ((counter + k) % 2 ^ 32).toNat) ∧
      (∀ e ∈ new, e.event_type = PIXEL ∨ e.event_type = PLAYER_ELIMINATED) ∧
      (Game.process_turn_loop M l i (g, store, counter)).1.board = g.board ∧
      (Game.process_turn_loop M l i (g, store, counter)).1.width = g.width ∧
      (Game.process_turn_loop M l i (g, store, counter)).1.height = g.height ∧
      (Game.process_turn_loop M l i (g, store, counter)).1.players = g.players := by
  induction l generalizing i g store counter with
  | nil => exact ⟨[], by simp [Game.process_turn_loop]⟩
  | cons it rest ih =>
    have hcons : ∀ (e : Event) (g' : Game) (r : Game × PlayerMap Pos × Int)
        (new' : List Event),
        (e.event_type = PIXEL ∨ e.event_type = PLAYER_ELIMINATED) →
        e.number = (counter % 2 ^ 32).toNat →
        g'.events = g.events ++ [e] →
        r.1.events = g'.events ++ new' →
        r.2.2 = counter + 1 + new'.length →
        new'.map Event.number
          = (List.range new'.length).map (fun k => ((counter + 1 + k) % 2 ^ 32).toNat) →
        (∀ e ∈ new', e.event_type = PIXEL ∨ e.event_type = PLAYER_ELIMINATED) →
        r.1.board = g.board → r.1.width = g.width → r.1.height = g.height →
        r.1.players = g.players →
        ∃ new : List Event,
          r.1.events = g.events ++ new ∧ r.2.2 = counter + new.length ∧
          new.map Event.number
            = (List.range new.length).map (fun k => ((counter + k) % 2 ^ 32).toNat) ∧
          (∀ e ∈ new, e.event_type = PIXEL ∨ e.event_type = PLAYER_ELIMINATED) ∧
          r.1.board = g.board ∧ r.1.width = g.width ∧ r.1.height = g.height ∧
          r.1.players = g.players := by
      intro e g' r new' ht hn hg' h1 h2 h3 h4 h5 h6 h7 h8
      refine ⟨e :: new', ?_, ?_, ?_, ?_, h5, h6, h7, h8⟩
      · rw [h1, hg']; simp
      · rw [h2]; simp; omega
      · simp only [List.map_cons, List.length_cons, List.range_succ_eq_map, hn, h3,
          List.map_map]
        congr 1
        · simp
        · apply List.map_congr_left
          intro k _
          simp only [Function.comp, Nat.succ_eq_add_one, Nat.cast_add, Nat.cast_one]
          congr 2
          omega
      · intro x hx
        rcases List.mem_cons.mp hx with h | h
        · rw [h]; exact ht
        · exact h4 x h
    simp only [Game.process_turn_loop]
    split_ifs with c1 c2 c3 c4
    · exact ih _ _ _ _
    · exact ih _ _ _ _
    · obtain ⟨e, he⟩ : ∃ e, e = Event.pixel (counter % 2 ^ 32).toNat (i % 256)
          ((((store it).update M g.turning_speed).get_position_int M).1 % 2 ^ 32).toNat
          ((((store it).update M g.turning_speed).get_position_int M).2 % 2 ^ 32).toNat :=
        ⟨_, rfl⟩
      rw [← he]
      obtain ⟨new', h1, h2, h3, h4, h5, h6, h7, h8⟩ := ih (i + 1)
        { g with events := g.events ++ [e] }
        (Function.update store it ((store it).update M g.turning_speed)) (counter + 1)
      exact hcons e { g with events := g.events ++ [e] } _ new' (Or.inl (by rw [he]; rfl))
        (by rw [he]; rfl) rfl h1 h2 h3 h4 h5 h6 h7 h8
    · obtain ⟨e, he⟩ : ∃ e, e = Event.playerEliminated (counter % 2 ^ 32).toNat (i % 256) :=
        ⟨_, rfl⟩
      rw [← he]
      exact hcons e { g with events := g.events ++ [e] } _ [] (Or.inr (by rw [he]; rfl))
        (by rw [he]; rfl) rfl (by simp) (by simp) (by simp) (by simp) rfl rfl rfl rfl
    · obtain ⟨e, he⟩ : ∃ e, e = Event.playerEliminated (counter % 2 ^ 32).toNat (i % 256) :=
        ⟨_, rfl⟩
      rw [← he]
      obtain ⟨new', h1, h2, h3, h4, h5, h6, h7, h8⟩ := ih (i + 1)
        { g with events := g.events ++ [e], still_playing := (g.still_playing + 255) % 256 }
        (Function.update (Function.update store it ((store it).update M g.turning_speed))
          it (((store it).update M g.turning_speed).set_state .ELIMINATED)) (counter + 1)
      exact hcons e { g with events := g.events ++ [e] } _ new' (Or.inr (by rw [he]; rfl))
        (by rw [he]; rfl) rfl h1 h2 h3 h4 h5 h6 h7 h8

/-- Every event appended by `process_turn` is a PIXEL or PLAYER_ELIMINATED event, never
GAME_OVER, and the events appended by one call are numbered consecutively from
`players.size()`, whatever the length of the log. -/
theorem process_turn_appends {Pos : Type} (M : Motion Pos) (g : Game)
    (store : PlayerMap Pos) :
    ∃ new : List Event,
      (Game.process_turn M g store).1.events = g.events ++ new ∧
      new.map Event.number
        = (List.range new.length).map
            (fun k => (((g.players.length + k : Nat) : Int) % 2 ^ 32).toNat) ∧
      (∀ e ∈ new, e.event_type ≠ GAME_OVER) ∧
      (Game.process_turn M g store).1.board = g.board := by
  obtain ⟨new, h1, _, h3, h4, h5, _⟩ :=
    process_turn_loop_spec M g.players 0 g store (g.players.length : Int)
  refine ⟨new, h1, ?_, ?_, h5⟩
  · rw [h3]
    apply List.map_congr_left
    intro k _
    simp
  · intro e he
    rcases h4 e he with h | h <;> rw [h] <;> decide

/-! ### The sample rounds, evaluated -/

/-- C6: in the round seeded with 804349, `start` appends events numbered 0, 1, 2 and the
first turn appends at index 3 an event numbered 2 again. -/
theorem process_turn_repeats_number :
    roundStarted.1.events.map Event.number = [0, 1, 2] ∧
    roundAfterTurn.1.events
      = [Event.NewGameEvent 21 0 10 10 [65, 0, 66, 0],
         Event.PlayerEliminatedEvent 6 1 0, Event.PlayerEliminatedEvent 6 2 1,
         Event.PlayerEliminatedEvent 6 2 0] ∧
    roundAfterTurn.1.events.map Event.number = [0, 1, 2, 2] ∧
    roundAfterTurn.2.2 = 3 := by
  decide

/-- C8: a second `start` with two participants on the game left by a finished round
leaves 7 events in the log, the first four being those of the previous round. -/
theorem second_start_keeps_old_log :
    roundAfterTurn.1.currently_being_played = false ∧
    roundAfterTurn.1.events.length = 4 ∧
    secondRound.1.events.length = 7 ∧
    secondRound.1.events.take 4 = roundAfterTurn.1.events ∧
    secondRound.1.events.drop 4
      = [Event.NewGameEvent 21 0 10 10 [65, 0, 66, 0],
         Event.PlayerEliminatedEvent 6 1 0, Event.PlayerEliminatedEvent 6 2 1] ∧
    secondRound.2.2 = 0 := by
  decide

/-- C9: in scenario A the seeded cells (1,5) and (7,8) are distinct, inside the 10 x 10
board and unpainted, and `start` appends PLAYER_ELIMINATED for both players, paints
nothing, leaves both sessions in state waiting and the live count at 2. -/
theorem start_eliminates_on_fresh_board :
    gridMotion.cell (scenarioA.2.1 clientA).pos = (1, 5) ∧
    gridMotion.cell (scenarioA.2.1 clientB).pos = (7, 8) ∧
    scenarioA.1.events
      = [Event.NewGameEvent 21 0 10 10 [65, 0, 66, 0],
         Event.PlayerEliminatedEvent 6 1 0, Event.PlayerEliminatedEvent 6 2 1] ∧
    scenarioA.1.board = List.replicate 10 (List.replicate 10 false) ∧
    (scenarioA.2.1 clientA).state = .WAITING ∧
    (scenarioA.2.1 clientB).state = .WAITING ∧
    scenarioA.1.still_playing = 2 := by
  decide

/-- C10: in the round seeded with 804349 the first turn brings the live count from 2 to
1 and ends the round, and the log then ends with PLAYER_ELIMINATED and holds no
GAME_OVER event. -/
theorem process_turn_no_game_over :
    roundStarted.1.still_playing = 2 ∧
    roundAfterTurn.1.still_playing = 1 ∧
    roundAfterTurn.1.currently_being_played = false ∧
    roundAfterTurn.1.events.getLast? = some (Event.PlayerEliminatedEvent 6 2 0) ∧
    (∀ e ∈ roundAfterTurn.1.events, e.event_type ≠ GAME_OVER) := by
  decide

/-! ### Pixel events -/

theorem admits_of_congr (g g' : Game) (hw : g'.width = g.width) (hh : g'.height = g.height)
    (hb : g'.board = g.board) (e : Event) (h : g.admits e) : g'.admits e := by
  cases e with
  | PixelEvent l n p x y =>
    obtain ⟨cx, cy, h1, h2, h3⟩ := h
    exact ⟨cx, cy, by rw [is_position_valid_congr g g' hw hh hb]; exact h1, h2, h3⟩
  | _ => trivial

theorem admits_in_bounds (g : Game) (l n p x y : Nat)
    (h : g.admits (Event.PixelEvent l n p x y)) : x < g.width ∧ y < g.height := by
  obtain ⟨cx, cy, h1, h2, h3⟩ := h
  unfold Game.is_position_valid at h1
  split_ifs at h1 with hc
  omega

theorem admits_clear_board (g : Game) (hb : ∀ row ∈ g.board, ∀ c ∈ row, c = false)
    (e : Event) (h : g.admits e) : e.event_type ≠ PIXEL := by
  cases e with
  | PixelEvent l n p x y =>
    obtain ⟨cx, cy, h1, _⟩ := h
    rw [is_position_valid_clear_board g hb] at h1
    cases h1
  | _ => simp [Event.event_type, NEW_GAME, PIXEL, PLAYER_ELIMINATED, GAME_OVER]

theorem start_event_admits {Pos : Type} (M : Motion Pos) (store : PlayerMap Pos) (g : Game)
    (i : Nat) (it : PlayerMapIt) : g.admits (Game.start_event M store g i it) := by
  unfold Game.start_event
  by_cases h : g.is_position_valid ((store it).get_position_int M).1
      ((store it).get_position_int M).2 = true
  · simp only [h, if_true]
    exact ⟨_, _, h, rfl, rfl⟩
  · simp only [h]
    trivial

theorem start_admits {Pos : Type} (M : Motion Pos) (g : Game) (store : PlayerMap Pos)
    (ps : List PlayerMapIt) (hall : ∀ e ∈ g.events, g.admits e) :
    ∀ e ∈ (Game.start M g store ps).1.events, g.admits e := by
  intro e he
  rw [(start_spec M g store ps).2.1] at he
  rcases List.mem_append.mp he with h | h
  · exact hall e h
  · rcases List.mem_cons.mp h with h | h
    · rw [h]; trivial
    · obtain ⟨x, _, hx⟩ := List.mem_map.mp h
      rw [← hx]
      exact start_event_admits M _ g x.1 x.2

theorem process_turn_loop_admits {Pos : Type} (M : Motion Pos) (g0 : Game)
    (l : List PlayerMapIt) (i : Nat) (g : Game) (store : PlayerMap Pos) (counter : Int)
    (hw : g.width = g0.width) (hh : g.height = g0.height) (hb : g.board = g0.board) :
    ∃ new : List Event,
      (Game.process_turn_loop M l i (g, store, counter)).1.events = g.events ++ new ∧
      ∀ e ∈ new, g0.admits e := by
  induction l generalizing i g store counter with
  | nil => exact ⟨[], by simp [Game.process_turn_loop]⟩
  | cons it rest ih =>
    simp only [Game.process_turn_loop]
    split_ifs with c1 c2 c3 c4
    · exact ih _ _ _ _ hw hh hb
    · exact ih _ _ _ _ hw hh hb
    · obtain ⟨e, he⟩ : ∃ e, e = Event.pixel (counter % 2 ^ 32).toNat (i % 256)
          ((((store it).update M g.turning_speed).get_position_int M).1 % 2 ^ 32).toNat
          ((((store it).update M g.turning_speed).get_position_int M).2 % 2 ^ 32).toNat :=
        ⟨_, rfl⟩
      rw [← he]
      obtain ⟨new', h1, h2⟩ := ih (i + 1) { g with events := g.events ++ [e] }
        (Function.update store it ((store it).update M g.turning_speed)) (counter + 1)
        hw hh hb
      refine ⟨e :: new', by rw [h1]; simp, ?_⟩
      intro x hx
      rcases List.mem_cons.mp hx with h | h
      · rw [h, he]
        exact ⟨_, _, by rw [← is_position_valid_congr g0 g hw hh hb]; exact c3, rfl, rfl⟩
      · exact h2 x h
    · refine ⟨[_], rfl, ?_⟩
      intro x hx
      rw [List.mem_singleton.mp hx]
      trivial
    · obtain ⟨e, he⟩ : ∃ e, e = Event.playerEliminated (counter % 2 ^ 32).toNat (i % 256) :=
        ⟨_, rfl⟩
      rw [← he]
      obtain ⟨new', h1, h2⟩ := ih (i + 1)
        { g with events := g.events ++ [e], still_playing := (g.still_playing + 255) % 256 }
        (Function.update (Function.update store it ((store it).update M g.turning_speed))
          it (((store it).update M g.turning_speed).set_state .ELIMINATED)) (counter + 1)
        hw hh hb
      refine ⟨e :: new', by rw [h1]; simp, ?_⟩
      intro x hx
      rcases List.mem_cons.mp hx with h | h
      · rw [h, he]; trivial
      · exact h2 x h

/-- In every reachable game no cell of the board is painted and every event of the log
passed the cell test of that board, so the log holds no PIXEL event. -/
theorem reachable_no_pixel {Pos : Type} (M : Motion Pos) (g : Game)
    (h : Game.Reachable M g) :
    (∀ row ∈ g.board, ∀ c ∈ row, c = false) ∧ (∀ e ∈ g.events, g.admits e) ∧
    (∀ e ∈ g.events, e.event_type ≠ PIXEL) := by
  have key : (∀ row ∈ g.board, ∀ c ∈ row, c = false) ∧ (∀ e ∈ g.events, g.admits e) := by
    induction h with
    | start o g0 store ps hnew =>
      obtain ⟨_, _, _, hw, hh, hb, _⟩ := start_spec M g0 store ps
      have hclear := new_board_clear o g0 hnew
      have hev : g0.events = [] := by
        unfold Game.new at hnew
        split_ifs at hnew
        cases hnew
        rfl
      refine ⟨by rw [hb]; exact hclear, ?_⟩
      intro e he
      exact admits_of_congr g0 _ hw hh hb e
        (start_admits M g0 store ps (by rw [hev]; simp) e he)
    | turn g store _ ih =>
      obtain ⟨_, _, _, _, _, hb, hw, hh, _⟩ :=
        process_turn_loop_spec M g.players 0 g store (g.players.length : Int)
      refine ⟨by simp only [Game.process_turn]; rw [hb]; exact ih.1, ?_⟩
      obtain ⟨new, h1, h2⟩ :=
        process_turn_loop_admits M g g.players 0 g store (g.players.length : Int) rfl rfl rfl
      intro e he
      apply admits_of_congr g _ hw hh hb e
      simp only [Game.process_turn] at he
      rw [h1] at he
      rcases List.mem_append.mp he with h | h
      · exact ih.2 e h
      · exact h2 e h
  exact ⟨key.1, key.2, fun e he => admits_clear_board g key.1 e (key.2 e he)⟩

/-- Whatever the board, a PIXEL event appended by `start` or by `process_turn` lies
inside the board. -/
theorem appended_pixel_in_bounds {Pos : Type} (M : Motion Pos) (g : Game)
    (store : PlayerMap Pos) (ps : List PlayerMapIt) (l n p x y : Nat) :
    (Event.PixelEvent l n p x y ∈ (Game.start M g store ps).1.events.drop g.events.length →
      x < g.width ∧ y < g.height) ∧
    (Event.PixelEvent l n p x y
        ∈ (Game.process_turn M g store).1.events.drop g.events.length →
      x < g.width ∧ y < g.height) := by
  constructor
  · intro he
    rw [(start_spec M g store ps).2.1, List.drop_left] at he
    rcases List.mem_cons.mp he with h | h
    · cases h
    · obtain ⟨a, _, ha⟩ := List.mem_map.mp h
      exact admits_in_bounds g l n p x y (by rw [← ha]; exact start_event_admits M _ g a.1 a.2)
  · intro he
    obtain ⟨new, h1, h2⟩ :=
      process_turn_loop_admits M g g.players 0 g store (g.players.length : Int) rfl rfl rfl
    simp only [Game.process_turn] at he
    rw [h1, List.drop_left] at he
    exact admits_in_bounds g l n p x y (h2 _ he)

/-! ### Eliminations and moves in the sample round -/

/-- C12: in the round seeded with 804349 the event at index 1 is PLAYER_ELIMINATED for
player index 0, appended by `start`, and the event at index 3, appended by the first
turn, is again PLAYER_ELIMINATED for player index 0. -/
theorem player_eliminated_twice :
    roundAfterTurn.1.events[1]? = some (Event.PlayerEliminatedEvent 6 1 0) ∧
    roundAfterTurn.1.events[3]? = some (Event.PlayerEliminatedEvent 6 2 0) ∧
    (roundStarted.2.1 clientA).state = .WAITING ∧
    (roundAfterTurn.2.1 clientA).state = .ELIMINATED := by
  decide

/-- C19: in the first turn of the round seeded with 804349 player 0 is live and moves
from cell (0,5) to cell (1,5), which is inside the 10 x 10 board and not painted;
`process_turn` appends PLAYER_ELIMINATED(0), marks the player eliminated, takes the live
count from 2 to 1 and leaves the cell unpainted. -/
theorem process_turn_eliminates_on_free_cell :
    (roundStarted.2.1 clientA).state = .WAITING ∧
    gridMotion.cell (roundStarted.2.1 clientA).pos = (0, 5) ∧
    gridMotion.cell (roundAfterTurn.2.1 clientA).pos = (1, 5) ∧
    (roundStarted.1.board.getD 1 []).getD 5 true = false ∧
    roundAfterTurn.1.events.drop roundStarted.1.events.length
      = [Event.PlayerEliminatedEvent 6 2 0] ∧
    (roundAfterTurn.2.1 clientA).state = .ELIMINATED ∧
    roundStarted.1.still_playing = 2 ∧ roundAfterTurn.1.still_playing = 1 ∧
    (roundAfterTurn.1.board.getD 1 []).getD 5 true = false := by
  decide

/-! ### Steering -/

/-- The heading after `Player::update(t)` for a heading `h` and a turning speed `t` in
`[0, 360)`: as the specification gives it when the key is left or none, and when the key
is right except for `h + t = 360`, where it stays 360. -/
theorem update_direction {Pos : Type} (M : Motion Pos) (p : Player Pos) (t : Nat)
    (hh : 0 ≤ p.direction ∧ p.direction < 360) (ht : t < 360) :
    (p.update M t).direction =
      if p.last_key = RIGHT then
        (if p.direction + t = 360 then 360 else (p.direction + t) % 360)
      else if p.last_key = LEFT then (p.direction - t) % 360
      else p.direction := by
  simp only [Player.update, to_int16]
  split_ifs <;> omega

/-- C20: with heading 354, turning speed 6 and the right key, the heading after
`Player::update` is 360, which is neither `(354 + 6) mod 360 = 0` nor inside
`[0, 360)`. -/
theorem update_heading_reaches_360 :
    steeringRight.direction = 354 ∧ steeringRight.last_key = RIGHT ∧
    (steeringRight.update gridMotion 6).direction = 360 ∧
    ((354 : Int) + 6) % 360 = 0 := by
  decide

/-! ### Datagrams -/

theorem serialize_wire (e : Event) (h : e.fits) (m : Mem) (address : Nat) :
    (e.serialize m address).2 = e.wire.length ∧
    load (e.serialize m address).1 address e.wire.length = e.wire := by
  obtain ⟨h1, h2, h3⟩ := serialize_layout e h m address
  have hlen : e.wire.length = e.framed_fields.length + 4 := by simp [Event.wire]
  refine ⟨by rw [h3, hlen], ?_⟩
  rw [h3, Nat.add_sub_cancel] at h1 h2
  rw [hlen, load_add, h1, h2, h1]
  rfl

theorem serialize_frame (e : Event) (m : Mem) (address b n : Nat) (hbn : b + n ≤ address) :
    load (e.serialize m address).1 b n = load m b n := by
  cases e <;>
    simp (disch := omega) only [Event.serialize, Event.serialize_base,
      load_store32_disjoint, load_store8_disjoint, load_memcpy_before]

theorem load_memcpy_zero (m : Mem) (src : List Nat) (n : Nat) (h : n = src.length) :
    load (memcpy m 0 src) 0 n = src := load_write_same _ _ _ _ h

/-- The loop of `send_events` cuts the byte stream into the buffers of `DATAGRAM_SIZE`
bytes it sends: the buffers sent, followed by what is pending in the buffer at the end,
are the bytes pending at the start followed by the records of the events, in order. -/
theorem send_events_loop_spec (dests : List ClientId) (evs : List Event) (buffer : Mem)
    (offset : Nat) (sent : List Sent)
    (hfit : ∀ e ∈ evs, e.fits ∧ e.wire.length ≤ Server.DATAGRAM_SIZE)
    (hoff : offset < Server.DATAGRAM_SIZE) :
    ∃ chunks : List (List Nat),
      (Server.send_events_loop dests evs (buffer, offset, sent)).2.2
        = sent ++ (chunks.map (fun c => dests.map
            (fun d => ({ client := d, n_bytes := Server.DATAGRAM_SIZE, data := c } : Sent)))
          ).flatten ∧
      (∀ c ∈ chunks, c.length = Server.DATAGRAM_SIZE) ∧
      chunks.flatten ++
          load (Server.send_events_loop dests evs (buffer, offset, sent)).1 0
            (Server.send_events_loop dests evs (buffer, offset, sent)).2.1
        = load buffer 0 offset ++ (evs.map Event.wire).flatten ∧
      (Server.send_events_loop dests evs (buffer, offset, sent)).2.1
        < Server.DATAGRAM_SIZE := by
  have hD : Server.DATAGRAM_SIZE = 550 := rfl
  induction evs generalizing buffer offset sent with
  | nil =>
    refine ⟨[], ?_, ?_, ?_, ?_⟩
    · simp [Server.send_events_loop]
    · intro c hc; cases hc
    · simp [Server.send_events_loop]
    · simpa only [Server.send_events_loop] using hoff
  | cons e rest ih =>
    obtain ⟨hfe, hle⟩ := hfit e (List.mem_cons_self _ _)
    have hrest : ∀ x ∈ rest, x.fits ∧ x.wire.length ≤ Server.DATAGRAM_SIZE :=
      fun x hx => hfit x (List.mem_cons_of_mem _ hx)
    obtain ⟨hsz, hld⟩ := serialize_wire e hfe buffer offset
    have hfr := serialize_frame e buffer offset 0 offset (by omega)
    have hmod : (offset + (e.serialize buffer offset).2) % 2 ^ 32
        = offset + e.wire.length := by
      rw [hsz]; exact Nat.mod_eq_of_lt (by omega)
    have hpend : load (e.serialize buffer offset).1 0 (offset + e.wire.length)
        = load buffer 0 offset ++ e.wire := by
      rw [load_add, hfr, Nat.zero_add, hld]
    simp only [Server.send_events_loop, hmod]
    by_cases hge : offset + e.wire.length ≥ Server.DATAGRAM_SIZE
    · rw [if_pos hge]
      obtain ⟨chunks, c1, c2, c3, c4⟩ := ih
        (memcpy (e.serialize buffer offset).1 0
          (load (e.serialize buffer offset).1 Server.DATAGRAM_SIZE
            (offset + e.wire.length - Server.DATAGRAM_SIZE)))
        (offset + e.wire.length - Server.DATAGRAM_SIZE)
        (sent ++ Server.send_to (e.serialize buffer offset).1 Server.DATAGRAM_SIZE dests)
        hrest (by omega)
      refine ⟨load (e.serialize buffer offset).1 0 Server.DATAGRAM_SIZE :: chunks,
        ?_, ?_, ?_, c4⟩
      · rw [c1, List.map_cons, List.flatten_cons, List.append_assoc]
        rfl
      · intro c hc
        rcases List.mem_cons.mp hc with h | h
        · rw [h, load_length]
        · exact c2 c h
      · have hsplit : load (e.serialize buffer offset).1 0 Server.DATAGRAM_SIZE ++
            load (e.serialize buffer offset).1 Server.DATAGRAM_SIZE
              (offset + e.wire.length - Server.DATAGRAM_SIZE)
            = load buffer 0 offset ++ e.wire := by
          rw [← hpend]
          have e1 : offset + e.wire.length
              = Server.DATAGRAM_SIZE + (offset + e.wire.length - Server.DATAGRAM_SIZE) := by
            omega
          conv_rhs => rw [e1, load_add, Nat.zero_add]
        rw [List.flatten_cons, List.append_assoc, c3,
          load_memcpy_zero _ _ _ (load_length _ _ _).symm, ← List.append_assoc, hsplit,
          List.map_cons, List.flatten_cons, List.append_assoc]
    · rw [if_neg hge]
      obtain ⟨chunks, c1, c2, c3, c4⟩ := ih (e.serialize buffer offset).1
        (offset + e.wire.length) sent hrest (by omega)
      refine ⟨chunks, c1, c2, ?_, c4⟩
      rw [c3, hpend, List.map_cons, List.flatten_cons, List.append_assoc]

theorem load_take (m : Mem) (a n k : Nat) (h : n ≤ k) :
    (load m a k).take n = load m a n := by
  obtain ⟨d, rfl⟩ := Nat.exists_eq_add_of_le h
  rw [load_add, List.take_left' (load_length m a n)]

theorem take_four_of_prefix (x rest g w : List Nat) (hg : g.length = 4)
    (hx : 4 ≤ x.length) (h : x ++ rest = g ++ w) : x.take 4 = g := by
  have h1 := congrArg (List.take 4) h
  have hl : (x ++ rest).take 4 = x.take 4 := List.take_append_of_le_length hx
  have hr : (g ++ w).take 4 = g := List.take_left' hg
  rw [hl, hr] at h1
  exact h1

/-- Lists of `D` bytes followed by fewer than `D` bytes are the consecutive slices of
`D` bytes of their concatenation. -/
theorem slices_of_chunks (D : Nat) (hD : 0 < D) (chunks : List (List Nat))
    (tail stream : List Nat) (hc : ∀ c ∈ chunks, c.length = D) (ht : tail.length < D)
    (h : chunks.flatten ++ tail = stream) :
    chunks = (List.range (stream.length / D)).map (fun k => (stream.drop (D * k)).take D) ∧
    tail = stream.drop (D * (stream.length / D)) ∧ tail.length = stream.length % D := by
  induction chunks generalizing stream with
  | nil =>
    simp only [List.flatten_nil, List.nil_append] at h
    subst h
    rw [Nat.div_eq_of_lt ht, Nat.mod_eq_of_lt ht]
    simp
  | cons c cs ih =>
    have hcl : c.length = D := hc c (List.mem_cons_self _ _)
    obtain ⟨i1, i2, i3⟩ := ih (cs.flatten ++ tail)
      (fun x hx => hc x (List.mem_cons_of_mem _ hx)) rfl
    rw [List.flatten_cons, List.append_assoc] at h
    subst h
    have hlen : (c ++ (cs.flatten ++ tail)).length = D + (cs.flatten ++ tail).length := by
      rw [List.length_append, hcl]
    have hdrop : ∀ k, (c ++ (cs.flatten ++ tail)).drop (D * (k + 1))
        = (cs.flatten ++ tail).drop (D * k) := by
      intro k
      have : D * (k + 1) = c.length + D * k := by rw [hcl]; ring
      rw [this, List.drop_append]
    rw [hlen, Nat.add_div_left _ hD, Nat.add_mod_left]
    refine ⟨?_, ?_, i3⟩
    · rw [List.range_succ_eq_map, List.map_cons, List.map_map]
      congr 1
      · rw [Nat.mul_zero, List.drop_zero, List.take_left' hcl]
      · conv_lhs => rw [i1]
        apply List.map_congr_left
        intro k _
        simp only [Function.comp, Nat.succ_eq_add_one]
        rw [hdrop]
    · rw [hdrop]
      exact i2

theorem map_fill_level (D : Nat) (chunks : List (List Nat)) :
    (chunks.map (fun c => (D, c))).map Prod.fst = List.replicate chunks.length D := by
  induction chunks with
  | nil => rfl
  | cons c cs ih => simp only [List.map_cons, List.length_cons, List.replicate_succ, ih]

/-- C13, amended: for every game id and every suffix of the log whose events each
serialize to at most `DATAGRAM_SIZE` bytes, let `stream` be the big-endian `game_id`
followed by the whole records of the events in log order. `send_events` hands to
`sendto`, for each destination in turn, a sequence of buffers of `DATAGRAM_SIZE` bytes
(so no datagram exceeds 550 bytes), each with a fill level `n_bytes`. The fill levels
are `DATAGRAM_SIZE` for each of the `stream.length / DATAGRAM_SIZE` buffers flushed
inside the loop, followed by `stream.length % DATAGRAM_SIZE` for a last buffer that is
sent only when that remainder is positive; and the filled part of buffer `k` is the
slice of `stream` that starts at byte `DATAGRAM_SIZE * k` and is `DATAGRAM_SIZE` bytes
long (shorter only at the end of the stream). So the stream is cut at every multiple of
550 bytes wherever that falls in a record, the filled parts concatenated are the stream,
and the first buffer begins with the `game_id`. -/
theorem send_events_stream {Pos : Type} (s : Server Pos) (number : Nat)
    (client : Option ClientId)
    (hfit : ∀ e ∈ s.game.events.drop number, e.fits ∧ e.wire.length ≤ Server.DATAGRAM_SIZE) :
    ∃ (stream : List Nat) (grams : List (Nat × List Nat)),
      stream = u32_be_bytes s.game.game_id ++
        ((s.game.events.drop number).map Event.wire).flatten ∧
      (s.send_events number client).2
        = (grams.map (fun g => (s.dests client).map
            (fun d => ({ client := d, n_bytes := g.1, data := g.2 } : Sent)))).flatten ∧
      (∀ g ∈ grams, g.2.length = Server.DATAGRAM_SIZE ∧ 0 < g.1 ∧
        g.1 ≤ Server.DATAGRAM_SIZE) ∧
      grams.map Prod.fst
        = List.replicate (stream.length / Server.DATAGRAM_SIZE) Server.DATAGRAM_SIZE ++
            (if stream.length % Server.DATAGRAM_SIZE > 0
              then [stream.length % Server.DATAGRAM_SIZE] else []) ∧
      grams.map (fun g => g.2.take g.1)
        = (List.range grams.length).map
            (fun k => (stream.drop (Server.DATAGRAM_SIZE * k)).take Server.DATAGRAM_SIZE) ∧
      (grams.map (fun g => g.2.take g.1)).flatten = stream ∧
      (∀ g, grams.head? = some g → g.2.take 4 = u32_be_bytes s.game.game_id) := by
  have hD : Server.DATAGRAM_SIZE = 550 := rfl
  obtain ⟨chunks, c1, c2, c3, c4⟩ := send_events_loop_spec (s.dests client)
    (s.game.events.drop number) (store32 s.buffer 0 s.game.game_id) 4 [] hfit (by omega)
  rw [load_store32_same] at c3
  refine ⟨u32_be_bytes s.game.game_id ++
    ((s.game.events.drop number).map Event.wire).flatten, ?_⟩
  simp only [Server.send_events, Server.send_to, Server.send_data_in_buffer]
  generalize Server.send_events_loop (s.dests client) (s.game.events.drop number)
    (store32 s.buffer 0 s.game.game_id, 4, []) = r at c1 c3 c4 ⊢
  clear hfit
  generalize hst : u32_be_bytes s.game.game_id ++
    ((s.game.events.drop number).map Event.wire).flatten = stream at c3 ⊢
  generalize Server.DATAGRAM_SIZE = D at *
  obtain ⟨s1, s2, s3⟩ := slices_of_chunks D (by omega) chunks (load r.1 0 r.2.1) stream c2
    (by rw [load_length]; exact c4) c3
  rw [load_length] at s3
  have hlen : chunks.length = stream.length / D := by
    conv_lhs => rw [s1]
    rw [List.length_map, List.length_range]
  have hchunk_take : (chunks.map (fun c => (D, c))).map
      (fun g : Nat × List Nat => g.2.take g.1) = chunks := by
    rw [List.map_map]
    conv_rhs => rw [← List.map_id chunks]
    apply List.map_congr_left
    intro c hc
    simp only [Function.comp, id]
    exact List.take_of_length_le (le_of_eq (c2 c hc))
  have hchunk_sent : ((chunks.map (fun c => (D, c))).map (fun g =>
      (s.dests client).map
        (fun d => ({ client := d, n_bytes := g.1, data := g.2 } : Sent))))
      = chunks.map (fun c => (s.dests client).map
          (fun d => ({ client := d, n_bytes := D, data := c } : Sent))) := by
    rw [List.map_map]
    rfl
  have hhead : ∀ c cs, chunks = c :: cs → c.take 4 = u32_be_bytes s.game.game_id := by
    intro c cs hc
    rw [hc, List.flatten_cons, List.append_assoc, ← hst] at c3
    exact take_four_of_prefix c _ _ _ (u32_be_bytes_length _)
      (by rw [c2 c (by rw [hc]; exact List.mem_cons_self _ _)]; omega) c3
  by_cases hpos : r.2.1 > 0
  · refine ⟨chunks.map (fun c => (D, c)) ++
        [(r.2.1, load r.1 0 D)], trivial, ?_, ?_, ?_, ?_, ?_, ?_⟩
    · rw [if_pos hpos, c1, List.map_append, List.flatten_append, hchunk_sent]
      simp [Server.send_to, Server.send_data_in_buffer]
    · intro g hg
      rcases List.mem_append.mp hg with h | h
      · obtain ⟨c, hc, rfl⟩ := List.mem_map.mp h
        exact ⟨c2 c hc, by omega, le_refl _⟩
      · rw [List.mem_singleton.mp h]
        exact ⟨load_length r.1 0 D, hpos, le_of_lt c4⟩
    · rw [List.map_append, map_fill_level, hlen, ← s3, if_pos hpos]
      rfl
    · rw [List.map_append, hchunk_take, List.length_append, List.length_map, hlen,
        List.length_singleton, List.range_succ, List.map_append, ← s1]
      simp only [List.map_cons, List.map_nil]
      rw [load_take r.1 0 r.2.1 D (le_of_lt c4), ← s2,
        List.take_of_length_le (by rw [load_length]; omega)]
    · rw [List.map_append, List.flatten_append, hchunk_take]
      simp only [List.map_cons, List.map_nil, List.flatten_cons, List.flatten_nil,
        List.append_nil]
      rw [load_take r.1 0 r.2.1 D (le_of_lt c4), c3]
    · intro g hg
      cases hch : chunks with
      | nil =>
        rw [hch] at hg c3
        simp only [List.map_nil, List.nil_append, List.head?_cons, Option.some.injEq] at hg
        subst hg
        simp only [List.flatten_nil, List.nil_append] at c3
        have hlen4 : 4 ≤ r.2.1 := by
          have := congrArg List.length c3
          rw [← hst] at this
          simp at this
          omega
        show (load r.1 0 D).take 4 = _
        rw [load_take r.1 0 4 D (by omega),
          ← load_take r.1 0 4 r.2.1 hlen4, c3, ← hst]
        exact List.take_left' (u32_be_bytes_length _)
      | cons c cs =>
        rw [hch] at hg
        simp only [List.map_cons, List.cons_append, List.head?_cons, Option.some.injEq] at hg
        subst hg
        exact hhead c cs hch
  · have hzero : r.2.1 = 0 := by omega
    refine ⟨chunks.map (fun c => (D, c)), trivial, ?_, ?_, ?_, ?_, ?_, ?_⟩
    · rw [if_neg hpos, c1, hchunk_sent, List.nil_append]
    · intro g hg
      obtain ⟨c, hc, rfl⟩ := List.mem_map.mp hg
      exact ⟨c2 c hc, by omega, le_refl _⟩
    · rw [map_fill_level, hlen, ← s3, if_neg hpos, List.append_nil]
    · rw [hchunk_take, List.length_map, hlen, ← s1]
    · rw [hchunk_take, ← c3, hzero]
      simp [load]
    · intro g hg
      cases hch : chunks with
      | nil => rw [hch] at hg; cases hg
      | cons c cs =>
        rw [hch] at hg
        simp only [List.map_cons, List.head?_cons, Option.some.injEq] at hg
        subst hg
        exact hhead c cs hch

set_option maxRecDepth 100000 in
theorem bigRoundNames_length : bigRoundNames.length = 504 := by decide

theorem bigRoundLog_fits :
    ∀ e ∈ bigRoundServer.game.events.drop 0,
      e.fits ∧ e.wire.length ≤ Server.DATAGRAM_SIZE := by
  intro e he
  have hn : bigRoundNames.length = 504 := bigRoundNames_length
  simp only [bigRoundServer, bigRoundLog, List.drop_zero, List.mem_cons, List.mem_map,
    List.mem_range] at he
  rcases he with rfl | ⟨i, _, rfl⟩
  · refine ⟨?_, ?_⟩
    · show bigRoundNames.length + 21 < 2 ^ 32
      rw [hn]; norm_num
    · simp [Event.wire, Event.framed_fields, Event.event_data, Event.newGame, hn,
        Server.DATAGRAM_SIZE]
  · exact ⟨trivial, by
      simp [Event.wire, Event.framed_fields, Event.event_data, Event.playerEliminated,
        Server.DATAGRAM_SIZE]⟩

/-- C13 witness: the replay of the whole log of the 24-player round to `clientA`. -/
theorem send_events_stream_witness :
    (∀ e ∈ bigRoundServer.game.events.drop 0,
      e.fits ∧ e.wire.length ≤ Server.DATAGRAM_SIZE) ∧
    ∃ (stream : List Nat) (grams : List (Nat × List Nat)),
      stream = u32_be_bytes bigRoundServer.game.game_id ++
        ((bigRoundServer.game.events.drop 0).map Event.wire).flatten ∧
      (bigRoundServer.send_events 0 (some clientA)).2
        = (grams.map (fun g => (bigRoundServer.dests (some clientA)).map
            (fun d => ({ client := d, n_bytes := g.1, data := g.2 } : Sent)))).flatten ∧
      (∀ g ∈ grams, g.2.length = Server.DATAGRAM_SIZE ∧ 0 < g.1 ∧
        g.1 ≤ Server.DATAGRAM_SIZE) ∧
      grams.map Prod.fst
        = List.replicate (stream.length / Server.DATAGRAM_SIZE) Server.DATAGRAM_SIZE ++
            (if stream.length % Server.DATAGRAM_SIZE > 0
              then [stream.length % Server.DATAGRAM_SIZE] else []) ∧
      grams.map (fun g => g.2.take g.1)
        = (List.range grams.length).map
            (fun k => (stream.drop (Server.DATAGRAM_SIZE * k)).take Server.DATAGRAM_SIZE) ∧
      (grams.map (fun g => g.2.take g.1)).flatten = stream ∧
      (∀ g, grams.head? = some g → g.2.take 4 = u32_be_bytes bigRoundServer.game.game_id) :=
  ⟨bigRoundLog_fits, send_events_stream bigRoundServer 0 (some clientA) bigRoundLog_fits⟩

set_option maxRecDepth 100000 in
/-- C13 counterexample: replaying the log of the 24-player round (game id 804349) to one
client makes two calls of `sendto`, with fill levels 550 and 315. The first buffer ends
with the first 7 bytes of the record of the second PLAYER_ELIMINATED event (`len` = 6
and three bytes of `event_no`); the second buffer begins with the rest of that record
(last byte of `event_no` = 2, `event_type` = 2, `player_number` = 1), not with the
`game_id`, whose first bytes are 0, 12, 69. -/
theorem send_events_splits_event :
    (bigRoundServer.send_events 0 (some clientA)).2.map Sent.n_bytes = [550, 315] ∧
    (bigRoundServer.send_events 0 (some clientA)).2[0]?.map (fun d => d.data.drop 543)
      = some [0, 0, 0, 6, 0, 0, 0] ∧
    (bigRoundServer.send_events 0 (some clientA)).2[1]?.map (fun d => d.data.take 3)
      = some [2, 2, 1] ∧
    (u32_be_bytes bigRoundServer.game.game_id).take 3 = [0, 12, 69] := by
  decide

/-! ### The session registry -/

/-- C14: with three events in the log, a datagram of the registered session "A" (equal
session id, matching name) asking for event 4294967295 makes `process_message` call
`send_events` with `get_event_iterator(4294967295)`, past the end of the log; so does a
datagram with a greater session id asking for event 7. -/
theorem replay_past_end_of_log :
    serverInRound.game.events.length = 3 ∧
    (serverInRound.players clientA).session_id = 1 ∧
    (Server.process_message ambientCalm serverInRound (hello 1 [65] 4294967295) clientA).2
      = some 4294967295 ∧
    (Server.ingest ambientCalm serverInRound (hello 1 [65] 4294967295) clientA).isNone
      = true ∧
    (Server.process_message ambientCalm serverInRound (hello 2 [65] 7) clientA).2
      = some 7 := by
  decide

/-- C15: on the empty registry a datagram with an empty name from `clientA` creates an
observing session; the same datagram from `clientB`, an endpoint without a session, is
then rejected: no session is created for `clientB` and it is not in the activity
queue. -/
theorem second_observer_rejected :
    (emptyServer.bind fun s =>
        Server.run_messages ambientCalm s [(hello 1 [] 0, clientA)]).map
      (fun s => (s.keys, (s.players clientA).state, (s.players clientA).name))
      = some ([clientA], PlayerState.OBSERVING, []) ∧
    (emptyServer.bind fun s =>
        Server.run_messages ambientCalm s
          [(hello 1 [] 0, clientA), (hello 1 [] 0, clientB)]).map
      (fun s => (s.keys, s.player_queue, s.waiting))
      = some ([clientA], [clientA], []) := by
  decide

/-- C16: from the empty registry, "A" registers at `clientA`, "B" registers at `clientB`,
then `clientB` sends a greater session id with the name "A": both sessions are then
named "A" and both are waiting. -/
theorem reconnect_duplicates_name :
    (emptyServer.bind fun s =>
        Server.run_messages ambientCalm s
          [(hello 1 [65] 0, clientA), (hello 1 [66] 0, clientB),
           (hello 2 [65] 0, clientB)]).map
      (fun s => ((s.players clientA).name, (s.players clientA).state,
                 (s.players clientB).name, (s.players clientB).state,
                 (s.players clientB).session_id))
      = some ([65], PlayerState.WAITING, [65], PlayerState.WAITING, 2) := by
  decide

/-- C17: from the empty registry, `clientA` registers with an empty name and then sends
a greater session id, again with an empty name: the session keeps the empty name, is in
state waiting and is in the waiting sequence. -/
theorem reconnect_empty_name_waits :
    (emptyServer.bind fun s =>
        Server.run_messages ambientCalm s [(hello 1 [] 0, clientA)]).map
      (fun s => ((s.players clientA).name, (s.players clientA).state, s.waiting))
      = some ([], PlayerState.OBSERVING, []) ∧
    (emptyServer.bind fun s =>
        Server.run_messages ambientCalm s
          [(hello 1 [] 0, clientA), (hello 2 [] 0, clientA)]).map
      (fun s => ((s.players clientA).name, (s.players clientA).state, s.waiting))
      = some ([], PlayerState.WAITING, [clientA]) := by
  decide

theorem check_activity_loop_frame {Pos : Type} (A : Ambient Pos) (q : List PlayerMapIt)
    (players : PlayerMap Pos) (k : PlayerMapIt) :
    ((Server.check_activity_loop A q players).2 k).session_id = (players k).session_id ∧
    ((Server.check_activity_loop A q players).2 k).name = (players k).name ∧
    ((Server.check_activity_loop A q players).2 k).last_key = (players k).last_key ∧
    (A.quiet k = false →
      ((Server.check_activity_loop A q players).2 k).state = (players k).state) := by
  induction q generalizing players with
  | nil => simp [Server.check_activity_loop]
  | cons it rest ih =>
    simp only [Server.check_activity_loop]
    by_cases hq : A.quiet it = true
    · simp only [hq, if_true]
      obtain ⟨i1, i2, i3, i4⟩ :=
        ih (Function.update players it ((players it).set_state .DISCONNECTED))
      by_cases hk : k = it
      · subst hk
        refine ⟨by rw [i1]; simp [Player.set_state], by rw [i2]; simp [Player.set_state],
          by rw [i3]; simp [Player.set_state], ?_⟩
        intro hf
        rw [hq] at hf
        cases hf
      · refine ⟨by rw [i1]; simp [Function.update, hk], by rw [i2]; simp [Function.update, hk],
          by rw [i3]; simp [Function.update, hk], ?_⟩
        intro hf
        rw [i4 hf]
        simp [Function.update, hk]
    · simp [hq]

theorem update_time_info_frame {Pos : Type} (A : Ambient Pos) (s : Server Pos)
    (it k : PlayerMapIt) :
    ((s.update_time_info A it).players k).session_id = (s.players k).session_id ∧
    ((s.update_time_info A it).players k).name = (s.players k).name ∧
    ((s.update_time_info A it).players k).last_key = (s.players k).last_key ∧
    (A.quiet k = false → ((s.update_time_info A it).players k).state = (s.players k).state) ∧
    (s.update_time_info A it).keys = s.keys ∧ (s.update_time_info A it).game = s.game :=
  ⟨(check_activity_loop_frame A s.player_queue s.players k).1,
   (check_activity_loop_frame A s.player_queue s.players k).2.1,
   (check_activity_loop_frame A s.player_queue s.players k).2.2.1,
   (check_activity_loop_frame A s.player_queue s.players k).2.2.2, rfl, rfl⟩

/-- For every registry state and every decoded message from an endpoint that has a
session, the session id stored for the endpoint after `process_message` is at least the
one stored before; and when the message carries a lower session id, or an equal one with
a name that does not match, no replay is started and the session keeps its id, its name
and its turn intent, and its lifecycle state too unless the activity sweep of the call
finds the sender itself silent. -/
theorem session_id_monotone {Pos : Type} (A : Ambient Pos) (s : Server Pos)
    (m : ClientMessage) (c : ClientId) (hc : c ∈ s.keys) :
    (s.players c).session_id ≤ ((Server.process_message A s m c).1.players c).session_id ∧
    ((m.session_id < (s.players c).session_id ∨
        (m.session_id = (s.players c).session_id ∧
          cstr m.player_name ≠ cstr ((s.players c).name ++ [0]))) →
      ((Server.process_message A s m c).1.players c).session_id = (s.players c).session_id ∧
      ((Server.process_message A s m c).1.players c).name = (s.players c).name ∧
      ((Server.process_message A s m c).1.players c).last_key = (s.players c).last_key ∧
      (A.quiet c = false →
        ((Server.process_message A s m c).1.players c).state = (s.players c).state) ∧
      (Server.process_message A s m c).2 = none) := by
  obtain ⟨u1, u2, u3, u4, _, _⟩ := update_time_info_frame A s c c
  unfold Server.process_message
  by_cases hd : m.turn_direction ≥ WRONG_DIRECTION
  · rw [if_pos hd]
    exact ⟨le_refl _, fun _ => ⟨rfl, rfl, rfl, fun _ => rfl, rfl⟩⟩
  · have hnot : ¬ (c ∉ s.keys) := fun h => h hc
    rw [if_neg hd, if_neg hnot]
    dsimp only
    rcases Nat.lt_trichotomy ((s.update_time_info A c).players c).session_id m.session_id
      with hlt | heq | hgt
    · have h1 : ¬ ((s.update_time_info A c).players c).session_id > m.session_id := by omega
      rw [if_neg h1, if_pos hlt]
      refine ⟨?_, ?_⟩
      · have hid : ∀ (t : Server Pos), t.players = Function.update
            (s.update_time_info A c).players c
            (((s.update_time_info A c).players c).reset m.session_id m.turn_direction
              m.player_name) → (s.players c).session_id ≤ (t.players c).session_id := by
          intro t ht
          rw [ht]
          simp only [Function.update_same, Player.reset]
          omega
        split_ifs
        · exact hid _ rfl
        · exact hid _ rfl
      · intro h
        rcases h with h | h <;> omega
    · have h1 : ¬ ((s.update_time_info A c).players c).session_id > m.session_id := by omega
      have h2 : ¬ ((s.update_time_info A c).players c).session_id < m.session_id := by omega
      rw [if_neg h1, if_neg h2]
      by_cases hn : cstr m.player_name
          ≠ cstr (((s.update_time_info A c).players c).name ++ [0])
      · rw [if_pos hn]
        refine ⟨?_, fun _ => ⟨u1, u2, u3, u4, rfl⟩⟩
        show (s.players c).session_id ≤ ((s.update_time_info A c).players c).session_id
        omega
      · rw [if_neg hn]
        refine ⟨?_, ?_⟩
        · have hid : ∀ (t : Server Pos), t.players = Function.update
              (s.update_time_info A c).players c
              (((s.update_time_info A c).players c).set_last_key m.turn_direction) →
              (s.players c).session_id ≤ (t.players c).session_id := by
            intro t ht
            rw [ht]
            simp only [Function.update_same, Player.set_last_key]
            omega
          split_ifs
          · exact hid _ rfl
          · exact hid _ rfl
        · intro h
          rcases h with h | h
          · omega
          · rw [u2] at hn
            exact absurd h.2 hn
    · rw [if_pos hgt]
      refine ⟨?_, fun _ => ⟨u1, u2, u3, u4, rfl⟩⟩
      show (s.players c).session_id ≤ ((s.update_time_info A c).players c).session_id
      omega

/-- A stale datagram (session id 0 against the stored 1) from `clientA` during a call in
which the clock reports nobody silent. -/
theorem session_id_monotone_witness :
    clientA ∈ serverInRound.keys ∧
    (hello 0 [65] 0).session_id < (serverInRound.players clientA).session_id ∧
    ambientCalm.quiet clientA = false ∧
    ((Server.process_message ambientCalm serverInRound (hello 0 [65] 0) clientA).1.players
        clientA).state = (serverInRound.players clientA).state ∧
    (Server.process_message ambientCalm serverInRound (hello 0 [65] 0) clientA).2 = none :=
  ⟨by decide, by decide, rfl,
    ((session_id_monotone ambientCalm serverInRound (hello 0 [65] 0) clientA (by decide)).2
      (Or.inl (by decide))).2.2.2.1 rfl,
    ((session_id_monotone ambientCalm serverInRound (hello 0 [65] 0) clientA (by decide)).2
      (Or.inl (by decide))).2.2.2.2⟩

/-- C18: "A" registers from `clientA` with session id 1 and is waiting. A datagram from
`clientA` with the lower session id 0, and likewise one with the equal session id 1 and
the name "B", is dropped without a replay and leaves id, name and turn intent as they
were, but the activity sweep that `update_time_info` runs before the session id is
looked at finds the sender silent and the session ends DISCONNECTED, not WAITING. -/
theorem stale_datagram_disconnects :
    registeredA.map (fun s => (s.keys, (s.players clientA).session_id,
        (s.players clientA).state)) = some ([clientA], 1, PlayerState.WAITING) ∧
    registeredA.map (fun s => ((s.players clientA).name, (s.players clientA).last_key))
      = some ([65], RIGHT) ∧
    registeredA.map (fun s =>
        ((Server.process_message ambientSilent s (steer 0 [65] LEFT) clientA).2,
         ((Server.process_message ambientSilent s (steer 0 [65] LEFT) clientA).1.players
            clientA).session_id,
         ((Server.process_message ambientSilent s (steer 0 [65] LEFT) clientA).1.players
            clientA).state)) = some (none, 1, PlayerState.DISCONNECTED) ∧
    registeredA.map (fun s =>
        (((Server.process_message ambientSilent s (steer 0 [65] LEFT) clientA).1.players
            clientA).name,
         ((Server.process_message ambientSilent s (steer 0 [65] LEFT) clientA).1.players
            clientA).last_key)) = some ([65], RIGHT) ∧
    registeredA.map (fun s =>
        ((Server.process_message ambientSilent s (steer 1 [66] LEFT) clientA).2,
         ((Server.process_message ambientSilent s (steer 1 [66] LEFT) clientA).1.players
            clientA).session_id,
         ((Server.process_message ambientSilent s (steer 1 [66] LEFT) clientA).1.players
            clientA).state)) = some (none, 1, PlayerState.DISCONNECTED) ∧
    registeredA.map (fun s =>
        (((Server.process_message ambientSilent s (steer 1 [66] LEFT) clientA).1.players
            clientA).name,
         ((Server.process_message ambientSilent s (steer 1 [66] LEFT) clientA).1.players
            clientA).last_key)) = some ([65], RIGHT) := by
  decide

/-! ### The lobby -/

theorem process_message_ready_to_play {Pos : Type} (A : Ambient Pos) (s : Server Pos)
    (m : ClientMessage) (c : ClientId) :
    (Server.process_message A s m c).1.ready_to_play = s.ready_to_play := by
  unfold Server.process_message
  dsimp only
  split_ifs <;> rfl

theorem ingest_ready_to_play {Pos : Type} (A : Ambient Pos) (s : Server Pos)
    (m : ClientMessage) (c : ClientId) (r : Server Pos × List Sent)
    (h : s.ingest A m c = some r) : r.1.ready_to_play = s.ready_to_play := by
  have hp := process_message_ready_to_play A s m c
  unfold Server.ingest at h
  split at h
  · next s1 heq =>
    cases h
    rw [heq] at hp
    exact hp
  · next s1 number heq =>
    rw [heq] at hp
    split_ifs at h
    cases h
    exact hp

/-- While `ready_to_play` is 0 the lobby condition holds, whatever the waiting
sequence. -/
theorem lobby_waits_of_zero {Pos : Type} (s : Server Pos) (h : s.ready_to_play = 0) :
    s.lobby_waits = true := by
  simp only [Server.lobby_waits, h, decide_eq_true_eq]
  omega

/-- No sequence of datagrams changes `ready_to_play`, so from a server whose counter
is 0 the lobby loop never stops by its condition: no round starts. -/
theorem lobby_never_exits {Pos : Type} (A : Ambient Pos) (s : Server Pos)
    (msgs : List (ClientMessage × ClientId)) (r : Server Pos × Bool)
    (h0 : s.ready_to_play = 0) (h : Server.lobby A s msgs = some r) :
    r.2 = false ∧ r.1.ready_to_play = 0 := by
  induction msgs generalizing s with
  | nil =>
    simp only [Server.lobby, lobby_waits_of_zero s h0, Option.some.injEq] at h
    rw [← h]
    exact ⟨rfl, h0⟩
  | cons x rest ih =>
    obtain ⟨m, c⟩ := x
    simp only [Server.lobby, lobby_waits_of_zero s h0, if_true] at h
    cases hi : s.ingest A m c with
    | none => rw [hi] at h; cases h
    | some r1 =>
      rw [hi] at h
      exact ih r1.1 (by rw [ingest_ready_to_play A s m c r1 hi]; exact h0) h

/-- The constructed server has `ready_to_play = 0`. -/
theorem new_ready_to_play {Pos : Type} (o : CliOptions) (buffer : Mem)
    (players : PlayerMap Pos) (s : Server Pos) (h : Server.new o buffer players = some s) :
    s.ready_to_play = 0 := by
  unfold Server.new at h
  cases hg : Game.new o with
  | none => rw [hg] at h; cases h
  | some g => rw [hg] at h; cases h; rfl

/-- C21: from the constructed server, "A" and "B" register from two endpoints and each
sends a turn direction other than straight once more; afterwards both sessions are
waiting with their non-straight direction recorded and the waiting sequence holds both,
but `ready_to_play` is still 0, the lobby condition still holds and the loop has not
stopped: no round starts. -/
theorem lobby_never_ready :
    (emptyServer.bind fun s => Server.lobby ambientCalm s lobbyTrace).map
      (fun r => (r.2, r.1.waiting, r.1.ready_to_play, r.1.lobby_waits))
      = some (false, [clientA, clientB], 0, true) ∧
    (emptyServer.bind fun s => Server.lobby ambientCalm s lobbyTrace).map
      (fun r => ((r.1.players clientA).name, (r.1.players clientA).state,
                 (r.1.players clientA).last_key))
      = some ([65], PlayerState.WAITING, RIGHT) ∧
    (emptyServer.bind fun s => Server.lobby ambientCalm s lobbyTrace).map
      (fun r => ((r.1.players clientB).name, (r.1.players clientB).state,
                 (r.1.players clientB).last_key))
      = some ([66], PlayerState.WAITING, LEFT) := by
  decide

/-! ### Endpoints as map keys -/

theorem getD_byte (c : ClientId) (h : c.wf) (k : Nat) : c.address.getD k 0 < 256 := by
  by_cases hk : k < c.address.length
  · rw [List.getD_eq_getElem _ _ hk]
    exact h.2 _ (List.getElem_mem hk)
  · rw [List.getD_eq_default _ _ (by omega)]
    norm_num

/-- The comparison on five numbers that `operator<` makes on the four address words and
the port. -/
theorem lt_unfold (a b : ClientId) :
    a.lt b =
      if a.word 0 ≠ b.word 0 then decide (a.word 0 < b.word 0)
      else if a.word 1 ≠ b.word 1 then decide (a.word 1 < b.word 1)
      else if a.word 2 ≠ b.word 2 then decide (a.word 2 < b.word 2)
      else if a.word 3 ≠ b.word 3 then decide (a.word 3 < b.word 3)
      else decide (a.port < b.port) := rfl

theorem endpoint_lt_irrefl (a : ClientId) : a.lt a = false := by
  rw [lt_unfold]
  simp

/-- The comparison is the lexicographic order on the four words and the port. -/
theorem lt_iff_lex (a b : ClientId) :
    a.lt b = true ↔
      (a.word 0 < b.word 0 ∨ (a.word 0 = b.word 0 ∧
        (a.word 1 < b.word 1 ∨ (a.word 1 = b.word 1 ∧
          (a.word 2 < b.word 2 ∨ (a.word 2 = b.word 2 ∧
            (a.word 3 < b.word 3 ∨ (a.word 3 = b.word 3 ∧ a.port < b.port)))))))) := by
  rw [lt_unfold]
  generalize a.word 0 = a0
  generalize a.word 1 = a1
  generalize a.word 2 = a2
  generalize a.word 3 = a3
  generalize b.word 0 = b0
  generalize b.word 1 = b1
  generalize b.word 2 = b2
  generalize b.word 3 = b3
  generalize a.port = pa
  generalize b.port = pb
  split_ifs <;> simp only [decide_eq_true_eq] <;> omega

theorem endpoint_lt_trans (a b c : ClientId) (hab : a.lt b = true) (hbc : b.lt c = true) :
    a.lt c = true := by
  rw [lt_iff_lex] at hab hbc ⊢
  generalize a.word 0 = a0 at *
  generalize a.word 1 = a1 at *
  generalize a.word 2 = a2 at *
  generalize a.word 3 = a3 at *
  generalize b.word 0 = b0 at *
  generalize b.word 1 = b1 at *
  generalize b.word 2 = b2 at *
  generalize b.word 3 = b3 at *
  generalize c.word 0 = c0 at *
  generalize c.word 1 = c1 at *
  generalize c.word 2 = c2 at *
  generalize c.word 3 = c3 at *
  generalize a.port = pa at *
  generalize b.port = pb at *
  generalize c.port = pc at *
  omega

/-- Two endpoints neither of which is smaller have the same four address words and the
same port. -/
theorem lt_neither (a b : ClientId) (hab : a.lt b = false) (hba : b.lt a = false) :
    a.word 0 = b.word 0 ∧ a.word 1 = b.word 1 ∧ a.word 2 = b.word 2 ∧
    a.word 3 = b.word 3 ∧ a.port = b.port := by
  rw [lt_unfold] at hab hba
  generalize a.word 0 = a0 at *
  generalize a.word 1 = a1 at *
  generalize a.word 2 = a2 at *
  generalize a.word 3 = a3 at *
  generalize b.word 0 = b0 at *
  generalize b.word 1 = b1 at *
  generalize b.word 2 = b2 at *
  generalize b.word 3 = b3 at *
  generalize a.port = pa at *
  generalize b.port = pb at *
  split_ifs at hab hba <;> simp only [decide_eq_false_iff_not] at hab hba <;> omega

/-- Of two different endpoints one is smaller, and never both. -/
theorem endpoint_lt_asymm (a b : ClientId) (hab : a.lt b = true) : b.lt a = false := by
  cases hba : b.lt a with
  | false => rfl
  | true =>
    have := endpoint_lt_trans a b a hab hba
    rw [endpoint_lt_irrefl] at this
    cases this

theorem word_bytes (a b : ClientId) (ha : a.wf) (hb : b.wf) (i : Nat)
    (h : a.word i = b.word i) :
    a.address.getD (4 * i) 0 = b.address.getD (4 * i) 0 ∧
    a.address.getD (4 * i + 1) 0 = b.address.getD (4 * i + 1) 0 ∧
    a.address.getD (4 * i + 2) 0 = b.address.getD (4 * i + 2) 0 ∧
    a.address.getD (4 * i + 3) 0 = b.address.getD (4 * i + 3) 0 := by
  unfold ClientId.word at h
  have a0 := getD_byte a ha (4 * i)
  have a1 := getD_byte a ha (4 * i + 1)
  have a2 := getD_byte a ha (4 * i + 2)
  have a3 := getD_byte a ha (4 * i + 3)
  have b0 := getD_byte b hb (4 * i)
  have b1 := getD_byte b hb (4 * i + 1)
  have b2 := getD_byte b hb (4 * i + 2)
  have b3 := getD_byte b hb (4 * i + 3)
  refine ⟨?_, ?_, ?_, ?_⟩ <;> omega

theorem address_eq_of_words (a b : ClientId) (ha : a.wf) (hb : b.wf)
    (h0 : a.word 0 = b.word 0) (h1 : a.word 1 = b.word 1) (h2 : a.word 2 = b.word 2)
    (h3 : a.word 3 = b.word 3) : a.address = b.address := by
  obtain ⟨p0, p1, p2, p3⟩ := word_bytes a b ha hb 0 h0
  obtain ⟨q0, q1, q2, q3⟩ := word_bytes a b ha hb 1 h1
  obtain ⟨r0, r1, r2, r3⟩ := word_bytes a b ha hb 2 h2
  obtain ⟨s0, s1, s2, s3⟩ := word_bytes a b ha hb 3 h3
  apply List.ext_getElem (by rw [ha.1, hb.1])
  intro n hn1 hn2
  have hn : n < 16 := by rw [ha.1] at hn1; exact hn1
  have e1 : a.address[n] = a.address.getD n 0 := (List.getD_eq_getElem _ _ hn1).symm
  have e2 : b.address[n] = b.address.getD n 0 := (List.getD_eq_getElem _ _ hn2).symm
  rw [e1, e2]
  interval_cases n <;> assumption

/-- C22: on endpoints (16 address bytes, a port) `operator<` is irreflexive and
transitive, exactly one of `a < b`, `b < a`, "same address bytes and same port" holds,
and so two endpoints are the same map key, neither smaller than the other, exactly when
their address bytes and their ports are equal. -/
theorem lt_strict_total_order (a b c : ClientId) (ha : a.wf) (hb : b.wf) :
    a.lt a = false ∧
    (a.lt b = true → b.lt c = true → a.lt c = true) ∧
    ((a.lt b = true ∧ b.lt a = false ∧ ¬ (a.address = b.address ∧ a.port = b.port)) ∨
     (a.lt b = false ∧ b.lt a = true ∧ ¬ (a.address = b.address ∧ a.port = b.port)) ∨
     (a.lt b = false ∧ b.lt a = false ∧ a.address = b.address ∧ a.port = b.port)) ∧
    ((a.lt b = false ∧ b.lt a = false) ↔ (a.address = b.address ∧ a.port = b.port)) := by
  have heq : (a.address = b.address ∧ a.port = b.port) → a.lt b = false ∧ b.lt a = false := by
    rintro ⟨h1, h2⟩
    have hab : a = b := by
      cases a; cases b
      simp only at h1 h2
      rw [h1, h2]
    rw [hab]
    exact ⟨endpoint_lt_irrefl b, endpoint_lt_irrefl b⟩
  have hne : a.lt b = false → b.lt a = false → a.address = b.address ∧ a.port = b.port := by
    intro hab hba
    obtain ⟨w0, w1, w2, w3, hp⟩ := lt_neither a b hab hba
    exact ⟨address_eq_of_words a b ha hb w0 w1 w2 w3, hp⟩
  refine ⟨endpoint_lt_irrefl a, endpoint_lt_trans a b c, ?_, ⟨fun h => hne h.1 h.2, heq⟩⟩
  cases hab : a.lt b with
  | true =>
    have hba := endpoint_lt_asymm a b hab
    refine Or.inl ⟨rfl, hba, fun h => ?_⟩
    have := (heq h).1
    rw [hab] at this
    cases this
  | false =>
    cases hba : b.lt a with
    | true =>
      refine Or.inr (Or.inl ⟨rfl, rfl, fun h => ?_⟩)
      have := (heq h).2
      rw [hba] at this
      cases this
    | false => exact Or.inr (Or.inr ⟨rfl, rfl, hne hab hba⟩)

theorem clientA_wf : clientA.wf := ⟨rfl, by decide⟩

theorem clientB_wf : clientB.wf := ⟨rfl, by decide⟩

/-- C22 witness: the endpoints `[::1]:1001` and `[::1]:1002`; the first is the
smaller. -/
theorem lt_strict_total_order_witness :
    clientA.wf ∧ clientB.wf ∧
    ((clientA.lt clientB = true ∧ clientB.lt clientA = false ∧
        ¬ (clientA.address = clientB.address ∧ clientA.port = clientB.port)) ∨
     (clientA.lt clientB = false ∧ clientB.lt clientA = true ∧
        ¬ (clientA.address = clientB.address ∧ clientA.port = clientB.port)) ∨
     (clientA.lt clientB = false ∧ clientB.lt clientA = false ∧
        clientA.address = clientB.address ∧ clientA.port = clientB.port)) ∧
    clientA.lt clientB = true :=
  ⟨clientA_wf, clientB_wf,
    (lt_strict_total_order clientA clientB clientA clientA_wf clientB_wf).2.2.1, by decide⟩

end BugsGame
